import Mathlib

/-
Verification of the bid-estimation engine in `src/app.py`.

Shallow-embedding conventions used throughout this file:

* Python `float` values are modelled as exact rationals (`ℚ`) and Python
  `int` as `ℤ`/`ℕ`.  IEEE-754 rounding of intermediate products is not
  modelled; at every concrete input appearing in a theorem below the
  rational result and the double result round identically.
* Python `dict`s are modelled as association lists `List (String × α)`
  with first-match lookup.  `d[k] = v` replaces the binding in place when
  the key is present and appends otherwise, matching the insertion
  order semantics of CPython dicts.
* Python strings are Lean `String`s, manipulated through their character
  lists (`String.data`) so that all definitions reduce inside the kernel.
  `str.strip()` strips the ASCII whitespace characters.
* Fallible Python code (an uncaught exception) is modelled with `Option`:
  `none` is a raised exception.  `parse_money` is the one numeric parser
  in the source without a `try`/`except`, so it alone returns an `Option`.
* `str.isdigit` accepts every Unicode digit character while `int(...)`
  accepts only decimal (Nd) digits.  The model covers the ASCII digits
  plus the superscript digits (U+00B9, U+00B2, U+00B3, U+2070,
  U+2074..U+2079), which is the fragment the theorems exercise.
* `uuid.uuid4()` is modelled by a fixed placeholder string: the engine
  only ever stores ids, it never compares or parses them.
-/

namespace BidApp

/-! ## Python string primitives over character lists -/

/-- Whitespace characters removed by Python `str.strip()`. -/
def pyWS (c : Char) : Bool :=
  c = ' ' || c = '\t' || c = '\n' || c = '\r' || c = '\x0b' || c = '\x0c'

/-- Python `str.strip()` on a character list. -/
def pyStrip (l : List Char) : List Char :=
  ((l.dropWhile pyWS).reverse.dropWhile pyWS).reverse

/-- Python `str.strip()` as a `String` operation. -/
def pyTrim (s : String) : String := String.mk (pyStrip s.data)

/-- Python `s.replace(c, "")` for a single-character needle: drop every
occurrence of the character. -/
def pyDropChar (c : Char) (l : List Char) : List Char :=
  l.filter (fun d => d ≠ c)

/-! ## Python numeric primitives -/

/-- Characters counted as digits by Python `str.isdigit` in our fragment:
ASCII decimal digits plus the superscript digits. -/
def pyIsDigit (c : Char) : Bool :=
  c.isDigit ||
    c = '¹' || c = '²' || c = '³' || c = '⁰' || c = '⁴' ||
    c = '⁵' || c = '⁶' || c = '⁷' || c = '⁸' || c = '⁹'

/-- Numeric value of a character accepted by Python `int(...)` (decimal
digits only — superscript digits are *rejected* by `int` even though
`str.isdigit` accepts them). -/
def pyIntDigit (c : Char) : Option ℕ :=
  if c.isDigit then some (c.toNat - '0'.toNat) else none

/-- Python `int(s)` on a non-empty string of characters that all passed
`str.isdigit`: succeeds only when every character is a decimal digit. -/
def pyIntOfDigits : List Char → Option ℕ
  | [] => some 0
  | c :: cs =>
    match pyIntOfDigits cs, pyIntDigit c with
    | some n, some d => some (d * 10 ^ cs.length + n)
    | _, _ => none

/-- Shape check for the decimal-core fragment of Python `float(s)`:
digits with at most one dot, at least one digit.  (Exponents, `inf`,
`nan`, and digit group underscores are outside the fragment used by the
application data.) -/
def pyFloatShape : List Char → Bool → Bool → Bool
  | [], seenDigit, _ => seenDigit
  | c :: cs, seenDigit, seenDot =>
    if c.isDigit then pyFloatShape cs true seenDot
    else if c = '.' && !seenDot then pyFloatShape cs seenDigit true
    else false

/-- Rational value of a decimal literal.  `acc` accumulates the integer
part; once the dot is seen, `scale` tracks the power of ten dividing the
next fractional digit. -/
def pyFloatVal : List Char → ℚ → Option ℕ → ℚ
  | [], acc, _ => acc
  | c :: cs, acc, none =>
    if c = '.' then pyFloatVal cs acc (some 1)
    else pyFloatVal cs (acc * 10 + (c.toNat - '0'.toNat : ℕ)) none
  | c :: cs, acc, some scale =>
    pyFloatVal cs (acc + ((c.toNat - '0'.toNat : ℕ) : ℚ) / 10 ^ scale) (some (scale + 1))

/-- Python `float(s)` restricted to the decimal fragment, as an exact
rational; `none` models `ValueError`. -/
def pyFloat (l : List Char) : Option ℚ :=
  match pyStrip l with
  | '-' :: rest => if pyFloatShape rest false false then some (-(pyFloatVal rest 0 none)) else none
  | '+' :: rest => if pyFloatShape rest false false then some (pyFloatVal rest 0 none) else none
  | rest => if pyFloatShape rest false false then some (pyFloatVal rest 0 none) else none

/-- Python `int(float)`: truncation toward zero. -/
def pyTrunc (q : ℚ) : ℤ := if 0 ≤ q then ⌊q⌋ else ⌈q⌉

/-- Source `roundup`: `int(math.ceil(v))`. -/
def roundup (v : ℚ) : ℤ := ⌈v⌉

/-- Source `safe_float`: strip, empty → `0.0`, otherwise `float(s)` with
every exception caught and turned into `0.0`. -/
def safe_float (x : String) : ℚ :=
  let s := pyStrip x.data
  if s.isEmpty then 0 else (pyFloat s).getD 0

/-- Source `safe_int`: `int(float(str(x).strip()))` with every exception
caught and turned into `0`. -/
def safe_int (x : String) : ℤ :=
  match pyFloat (pyStrip x.data) with
  | some q => pyTrunc q
  | none => 0

/-- Source `parse_money`.  The `"".join(c for c in s if c.isdigit())`
filter keeps superscript digits, and the final `int(digits)` — not
wrapped in any `try` — raises `ValueError` on them; `none` models that
exception. -/
def parse_money (txt : String) : Option ℕ :=
  if txt = "" then some 0
  else
    let s := pyStrip (pyDropChar ',' (pyDropChar '$' txt.data))
    let digits := s.filter pyIsDigit
    if digits.isEmpty then some 0 else pyIntOfDigits digits

/-- Character filter of `parse_pct`: keep digits and at most one dot. -/
def pctClean : List Char → Bool → List Char
  | [], _ => []
  | c :: cs, dotUsed =>
    if pyIsDigit c then c :: pctClean cs dotUsed
    else if c = '.' && !dotUsed then c :: pctClean cs true
    else pctClean cs dotUsed

/-- Source `parse_pct`: strip `%` and `,`, keep digits and at most one
dot, parse with exceptions caught to `0.0`. -/
def parse_pct (txt : String) : ℚ :=
  if txt = "" then 0
  else
    let s := pyStrip (pyDropChar ',' (pyDropChar '%' txt.data))
    if s.isEmpty then 0
    else
      let cleaned := pctClean s false
      if cleaned.isEmpty then 0
      else (pyFloat cleaned).getD 0

/-- Source `calc_cost`: `p + int(p * (s / 100.0))`, with `int(...)`
truncating toward zero.  (`safe_int`/`safe_float` applied to the already
numeric arguments are the identity.) -/
def calc_cost (price : ℤ) (surcharge_pct : ℚ) : ℤ :=
  price + pyTrunc ((price : ℚ) * (surcharge_pct / 100))

/-- Source `variants_for_cc`: `"BASE"` then `"ALT{n}"` for each alternate
in stored order. -/
def variants_for_cc (alts : List ℤ) : List String :=
  "BASE" :: alts.map (fun n => "ALT" ++ toString n)

/-! ## Python dicts as association lists

A CPython dict is an insertion-ordered association list with unique keys:
`d[k] = v` replaces in place when `k` is present and appends otherwise,
`del d[k]` removes the binding, iteration follows the list order. -/

/-- First-match lookup, `d.get(k)`. -/
def dlookup {α : Type} (k : String) : List (String × α) → Option α
  | [] => none
  | (k₁, v) :: t => if k₁ = k then some v else dlookup k t

/-- Python `d[k] = v`: replace in place, or append when absent. -/
def dinsert {α : Type} (k : String) (v : α) : List (String × α) → List (String × α)
  | [] => [(k, v)]
  | (k₁, v₁) :: t => if k₁ = k then (k, v) :: t else (k₁, v₁) :: dinsert k v t

/-- Python `del d[k]`. -/
def derase {α : Type} (k : String) (d : List (String × α)) : List (String × α) :=
  d.filter (fun kv => kv.1 ≠ k)

/-- Python `d.setdefault(k, v)` (the dict after the call). -/
def dsetdefault {α : Type} (k : String) (v : α) (d : List (String × α)) :
    List (String × α) :=
  if (dlookup k d).isSome then d else d ++ [(k, v)]

theorem dlookup_dinsert_self {α : Type} (k : String) (v : α) (d : List (String × α)) :
    dlookup k (dinsert k v d) = some v := by
  induction d with
  | nil => simp [dinsert, dlookup]
  | cons kv t ih =>
    by_cases h : kv.1 = k
    · simp [dinsert, h, dlookup]
    · simp [dinsert, h, dlookup, ih]

theorem dlookup_dinsert_ne {α : Type} (k k₁ : String) (v : α) (d : List (String × α))
    (h : k₁ ≠ k) : dlookup k₁ (dinsert k v d) = dlookup k₁ d := by
  induction d with
  | nil => simp [dinsert, dlookup, Ne.symm h]
  | cons kv t ih =>
    by_cases h₂ : kv.1 = k
    · subst h₂
      simp [dinsert, dlookup, Ne.symm h, h]
    · simp only [dinsert, h₂, if_false, dlookup]
      by_cases h₃ : kv.1 = k₁ <;> simp [h₃, ih]

theorem dlookup_append {α : Type} (k : String) (d₁ d₂ : List (String × α)) :
    dlookup k (d₁ ++ d₂) = ((dlookup k d₁).rec (dlookup k d₂) (fun v => some v) : Option α) := by
  induction d₁ with
  | nil => simp [dlookup]
  | cons kv t ih =>
    by_cases h : kv.1 = k <;> simp [dlookup, h, ih]

/-- Lookup through a key-predicate filter. -/
theorem dlookup_filter_key {α : Type} (k : String) (p : String → Bool)
    (d : List (String × α)) :
    dlookup k (d.filter (fun kv => p kv.1)) = if p k then dlookup k d else none := by
  induction d with
  | nil => simp [dlookup]
  | cons kv t ih =>
    by_cases h : kv.1 = k
    · subst h
      by_cases hp : p kv.1 <;> simp [dlookup, hp, ih]
    · by_cases hp : p kv.1 <;> simp [dlookup, h, hp, ih]

theorem dlookup_dsetdefault {α : Type} (k k₁ : String) (v : α) (d : List (String × α)) :
    dlookup k₁ (dsetdefault k v d) =
      if k₁ = k then ((dlookup k d).rec (some v) (fun w => some w) : Option α)
      else dlookup k₁ d := by
  unfold dsetdefault
  rcases h : dlookup k d with _ | w
  · simp only [h, Option.isSome_none, Bool.false_eq_true, if_false]
    rw [dlookup_append]
    by_cases hk : k₁ = k
    · subst hk
      simp [h, dlookup]
    · rcases h₂ : dlookup k₁ d with _ | u <;> simp [h₂, dlookup, Ne.symm hk, hk]
  · simp only [h, Option.isSome_some, if_true]
    by_cases hk : k₁ = k
    · subst hk; simp [h]
    · simp [hk]

/-- Replacing a binding by the value it already has is the identity. -/
theorem dinsert_lookup_self {α : Type} (k : String) (v : α) (d : List (String × α))
    (h : dlookup k d = some v) : dinsert k v d = d := by
  induction d with
  | nil => simp [dlookup] at h
  | cons kv t ih =>
    by_cases h₁ : kv.1 = k
    · rw [dlookup, if_pos h₁] at h
      obtain ⟨k₀, v₀⟩ := kv
      simp only at h₁
      subst h₁
      simp only [Option.some_inj] at h
      subst h
      simp [dinsert]
    · rw [dlookup, if_neg h₁] at h
      simp [dinsert, h₁, ih h]

/-! ## Data model

Following the JSON job record: a cost code carries its `code` string and
alternate list (its `id` and `description` are opaque to the engine and
omitted); a quote is a flat dict of strings (`Quote`), a quotes-map entry
is either a legacy list, a variant dict, or some other malformed value
(`QVal.qother`), exactly the three cases `normalize_quotes` branches on. -/

/-- Flat Python dict with string values. -/
def StrDict : Type := List (String × String)

instance : DecidableEq StrDict := by unfold StrDict; infer_instance

structure CostCode where
  code : String
  alts : List ℤ
deriving DecidableEq

/-- Vendor quote record; `normalize_quotes` only ever appends the blank
placeholder `{}` and never reads quote fields, so the dict is opaque here. -/
def Quote : Type := StrDict

instance : DecidableEq Quote := by unfold Quote; infer_instance

/-- Blank placeholder quote `{}` appended to empty buckets. -/
def emptyQuote : Quote := []

/-- Value of one `job["quotes"]` entry: a variant dict in the healthy
shape, a legacy flat list, or anything else (coerced to `{}` by the
`isinstance` checks). -/
inductive QVal : Type where
  | qlist : List Quote → QVal
  | qdict : List (String × List Quote) → QVal
  | qother : QVal
deriving DecidableEq

/-- Stripped `code` of a cost code record (`(cc.get("code") or "").strip()`). -/
def ccCode (cc : CostCode) : String := String.mk (pyStrip cc.code.data)

/-- Codes owned by the job: stripped, non-empty (`codes_present`). -/
def presCodes (ccs : List CostCode) : List String :=
  (ccs.map ccCode).filter (fun c => c ≠ "")

/-- One iteration of the `for v in needed_variants` loop of
`normalize_quotes`: `setdefault(v, [])` then append `{}` when empty. -/
def addVariant (b : List (String × List Quote)) (v : String) :
    List (String × List Quote) :=
  match dlookup v b with
  | none => b ++ [(v, [emptyQuote])]
  | some l => if l.isEmpty then dinsert v [emptyQuote] b else b

/-- Bucket seen by the per-cost-code loop after `setdefault(code, {})` and
the two `isinstance` repairs: a legacy list becomes `{BASE: ...}`, an
absent entry the fresh `{}`, any non-dict value `{}`. -/
def toBucket : Option QVal → List (String × List Quote)
  | some (QVal.qlist l) => [("BASE", l)]
  | some (QVal.qdict d) => d
  | some QVal.qother => []
  | none => []

/-- Variant repair of one bucket: ensure every needed variant has a
non-empty entry, then delete the variants not needed. -/
def repairB (needed : List String) (b : List (String × List Quote)) :
    List (String × List Quote) :=
  (needed.foldl addVariant b).filter (fun kv => needed.contains kv.1)

/-- Body of the per-cost-code loop of `normalize_quotes`: skip blank codes,
otherwise repair the code's bucket in place. -/
def nqStep (q : List (String × QVal)) (cc : CostCode) : List (String × QVal) :=
  let code := ccCode cc
  if code = "" then q
  else
    dinsert code
      (QVal.qdict (repairB (variants_for_cc cc.alts) (toBucket (dlookup code q)))) q

/-- Source `normalize_quotes`, acting on the quotes map: the per-cost-code
loop, then deletion of the codes no longer present. -/
def normalize_quotes_map (ccs : List CostCode) (q : List (String × QVal)) :
    List (String × QVal) :=
  (ccs.foldl nqStep q).filter (fun kv => (presCodes ccs).contains kv.1)

/-! ### Pointwise characterization of `normalize_quotes` -/

/-- Bucket entry after the ensure-non-empty repair: an absent or empty
variant becomes the single blank quote. -/
def nonemptify : Option (List Quote) → List Quote
  | some (x :: t) => x :: t
  | _ => [emptyQuote]

/-- Needed-variant lists of the cost-code records carrying code `c`,
in record order. -/
def neededSeq (ccs : List CostCode) (c : String) : List (List String) :=
  (ccs.filter (fun cc => ccCode cc = c)).map (fun cc => variants_for_cc cc.alts)

/-- Value of variant `v` of code `c` after the whole per-cost-code loop,
as a function of the original entry `b₀` and the needed-variant lists `N`
of the records with code `c` (nonempty `N`): the variant survives iff it
is needed by the last record; it keeps its original quotes iff every
record with this code needed it all along. -/
def chainVal (b₀ : Option QVal) (N : List (List String)) (v : String) :
    Option (List Quote) :=
  if (N.getLastD []).contains v then
    some (if N.all (fun A => A.contains v) then nonemptify (dlookup v (toBucket b₀))
          else [emptyQuote])
  else none

theorem contains_true_iff {l : List String} {a : String} : l.contains a = true ↔ a ∈ l := by
  induction l with
  | nil => simp
  | cons x t ih => simp [List.contains_cons, beq_iff_eq, ih]

theorem nonemptify_ne_nil (o : Option (List Quote)) : nonemptify o ≠ [] := by
  rcases o with _ | l
  · simp [nonemptify]
  · rcases l with _ | ⟨x, t⟩ <;> simp [nonemptify]

theorem nonemptify_idem (o : Option (List Quote)) :
    nonemptify (some (nonemptify o)) = nonemptify o := by
  rcases o with _ | l
  · simp [nonemptify]
  · rcases l with _ | ⟨x, t⟩ <;> simp [nonemptify]

theorem dlookup_addVariant (b : List (String × List Quote)) (n v : String) :
    dlookup v (addVariant b n) =
      if v = n then some (nonemptify (dlookup n b)) else dlookup v b := by
  unfold addVariant
  rcases h : dlookup n b with _ | l
  · rw [dlookup_append]
    by_cases hv : v = n
    · subst hv
      simp [h, dlookup, nonemptify]
    · rcases h₂ : dlookup v b with _ | u <;> simp [h₂, dlookup, Ne.symm hv, hv, nonemptify]
  · rcases l with _ | ⟨x, t⟩
    · simp only [List.isEmpty_nil, if_true]
      by_cases hv : v = n
      · subst hv
        simp [dlookup_dinsert_self, h, nonemptify]
      · simp [dlookup_dinsert_ne _ _ _ _ hv, hv]
    · simp only [List.isEmpty_cons, if_false]
      by_cases hv : v = n
      · subst hv
        simp [h, nonemptify]
      · simp [hv]

theorem dlookup_foldl_addVariant (needed : List String)
    (b : List (String × List Quote)) (v : String) :
    dlookup v (needed.foldl addVariant b) =
      if needed.contains v then some (nonemptify (dlookup v b)) else dlookup v b := by
  induction needed generalizing b with
  | nil => simp
  | cons n rest ih =>
    rw [List.foldl_cons, ih]
    by_cases hv : v = n
    · subst hv
      simp [dlookup_addVariant, nonemptify_idem, List.contains_cons]
    · have hne : (v == n) = false := by simp [hv]
      simp [dlookup_addVariant, hv, List.contains_cons, hne]

theorem dlookup_repairB (needed : List String) (b : List (String × List Quote))
    (v : String) :
    dlookup v (repairB needed b) =
      if needed.contains v then some (nonemptify (dlookup v b)) else none := by
  unfold repairB
  rw [dlookup_filter_key, dlookup_foldl_addVariant]
  by_cases hv : needed.contains v = true
  · rw [if_pos hv, if_pos hv, if_pos hv]
  · rw [if_neg hv, if_neg hv]

theorem getLastD_cons_of_ne_nil {α : Type} (a : α) (l : List α) (d : α) (h : l ≠ []) :
    (a :: l).getLastD d = l.getLastD d := by
  rcases l with _ | ⟨x, t⟩
  · exact absurd rfl h
  · simp [List.getLastD_cons]

/-- Pointwise behaviour of the per-cost-code loop of `normalize_quotes` at
code `c`: untouched when no record carries `c`, otherwise a dict whose
variant lookups are `chainVal` of the original entry. -/
theorem nq_fold_lookup (ccs : List CostCode) (q : List (String × QVal)) (c : String)
    (hc : c ≠ "") :
    (neededSeq ccs c = [] ∧ dlookup c (ccs.foldl nqStep q) = dlookup c q) ∨
    (neededSeq ccs c ≠ [] ∧ ∃ b, dlookup c (ccs.foldl nqStep q) = some (QVal.qdict b) ∧
      ∀ v, dlookup v b = chainVal (dlookup c q) (neededSeq ccs c) v) := by
  induction ccs generalizing q with
  | nil => exact Or.inl ⟨rfl, rfl⟩
  | cons cc rest ih =>
    rw [List.foldl_cons]
    by_cases hcc : ccCode cc = c
    · have hstep : dlookup c (nqStep q cc) =
          some (QVal.qdict (repairB (variants_for_cc cc.alts) (toBucket (dlookup c q)))) := by
        unfold nqStep
        rw [hcc, if_neg hc, dlookup_dinsert_self]
      have hseq : neededSeq (cc :: rest) c = variants_for_cc cc.alts :: neededSeq rest c := by
        simp [neededSeq, List.filter_cons, hcc]
      rcases ih (nqStep q cc) with ⟨h₁, h₂⟩ | ⟨h₁, b, h₂, h₃⟩
      · refine Or.inr ⟨by simp [hseq], repairB (variants_for_cc cc.alts) (toBucket (dlookup c q)),
          by rw [h₂, hstep], ?_⟩
        intro v
        rw [dlookup_repairB, chainVal, hseq, h₁]
        simp only [List.getLastD_cons, List.getLastD_nil, List.all_cons, List.all_nil,
          Bool.and_true]
        by_cases hv : (variants_for_cc cc.alts).contains v = true
        · rw [if_pos hv, if_pos hv, if_pos hv]
        · rw [if_neg hv, if_neg hv]
      · refine Or.inr ⟨by simp [hseq], b, h₂, ?_⟩
        intro v
        rw [h₃ v, hstep, hseq]
        unfold chainVal
        rw [getLastD_cons_of_ne_nil _ _ _ h₁]
        by_cases hlast : ((neededSeq rest c).getLastD []).contains v = true
        · rw [if_pos hlast, if_pos hlast]
          by_cases hall : ((neededSeq rest c).all (fun A => A.contains v)) = true
          · rw [if_pos hall]
            show some (nonemptify (dlookup v (repairB (variants_for_cc cc.alts)
              (toBucket (dlookup c q))))) = _
            rw [dlookup_repairB]
            by_cases hA : (variants_for_cc cc.alts).contains v = true
            · rw [if_pos hA, nonemptify_idem, if_pos]
              simp only [List.all_cons, hA, hall, Bool.and_self]
            · rw [if_neg hA, if_neg]
              · rfl
              · simp only [List.all_cons, Bool.and_eq_true]
                exact fun h => hA h.1
          · rw [if_neg hall, if_neg]
            simp only [List.all_cons, Bool.and_eq_true]
            exact fun h => hall h.2
        · rw [if_neg hlast, if_neg hlast]
    · have hstep : dlookup c (nqStep q cc) = dlookup c q := by
        unfold nqStep
        by_cases hz : ccCode cc = ""
        · rw [if_pos hz]
        · rw [if_neg hz, dlookup_dinsert_ne _ _ _ _ (fun h => hcc h.symm)]
      have hseq : neededSeq (cc :: rest) c = neededSeq rest c := by
        simp [neededSeq, List.filter_cons, hcc]
      rcases ih (nqStep q cc) with ⟨h₁, h₂⟩ | ⟨h₁, b, h₂, h₃⟩
      · exact Or.inl ⟨by rw [hseq, h₁], by rw [h₂, hstep]⟩
      · refine Or.inr ⟨by rw [hseq]; exact h₁, b, h₂, ?_⟩
        intro v
        rw [h₃ v, hstep, hseq]

/-- Codes present if and only if some record carries them. -/
theorem presCodes_contains (ccs : List CostCode) (c : String) :
    (presCodes ccs).contains c = true ↔ (c ≠ "" ∧ neededSeq ccs c ≠ []) := by
  rw [contains_true_iff]
  unfold presCodes neededSeq
  rw [List.mem_filter]
  constructor
  · rintro ⟨hm, hne⟩
    have hne₂ : c ≠ "" := by simpa using hne
    refine ⟨hne₂, fun hnil => ?_⟩
    rw [List.map_eq_nil_iff] at hnil
    obtain ⟨cc, hcc, hcceq⟩ := List.mem_map.mp hm
    have hmem : cc ∈ List.filter (fun cc => decide (ccCode cc = c)) ccs :=
      List.mem_filter.mpr ⟨hcc, by simp [hcceq]⟩
    rw [hnil] at hmem
    exact absurd hmem (List.not_mem_nil cc)
  · rintro ⟨hne, hfil⟩
    refine ⟨?_, by simpa using hne⟩
    have hfil₂ : List.filter (fun cc => decide (ccCode cc = c)) ccs ≠ [] := by
      intro h
      exact hfil (by rw [h]; rfl)
    obtain ⟨cc, hccmem⟩ := List.exists_mem_of_ne_nil _ hfil₂
    have h₂ := List.mem_filter.mp hccmem
    exact List.mem_map.mpr ⟨cc, h₂.1, by simpa using h₂.2⟩

/-- Lookup in the fully normalized quotes map. -/
theorem normalize_quotes_map_lookup (ccs : List CostCode) (q : List (String × QVal))
    (c : String) :
    dlookup c (normalize_quotes_map ccs q) =
      if (presCodes ccs).contains c then dlookup c (ccs.foldl nqStep q) else none := by
  unfold normalize_quotes_map
  exact dlookup_filter_key c _ _

/-- Quotes of one `(code, variant)` bucket, `job["quotes"][c][v]` when the
entry is a healthy dict. -/
def quoteVariantLookup (q : List (String × QVal)) (c v : String) :
    Option (List Quote) :=
  match dlookup c q with
  | some (QVal.qdict d) => dlookup v d
  | _ => none

/-- Normalized quotes map at a present code: a variant dict whose lookups
are `chainVal` of the original entry. -/
theorem normalize_quotes_present (ccs : List CostCode) (q : List (String × QVal))
    (c : String) (hc : (presCodes ccs).contains c = true) :
    ∃ b, dlookup c (normalize_quotes_map ccs q) = some (QVal.qdict b) ∧
      ∀ v, dlookup v b = chainVal (dlookup c q) (neededSeq ccs c) v := by
  obtain ⟨hne, hseq⟩ := (presCodes_contains ccs c).mp hc
  rcases nq_fold_lookup ccs q c hne with ⟨h₁, _⟩ | ⟨_, b, h₂, h₃⟩
  · exact absurd h₁ hseq
  · exact ⟨b, by rw [normalize_quotes_map_lookup, if_pos hc, h₂], h₃⟩

/-- Normalized quotes map at an absent code: no entry. -/
theorem normalize_quotes_absent (ccs : List CostCode) (q : List (String × QVal))
    (c : String) (hc : ¬((presCodes ccs).contains c = true)) :
    dlookup c (normalize_quotes_map ccs q) = none := by
  rw [normalize_quotes_map_lookup, if_neg hc]

/-- Every bucket of a normalized quotes map is non-empty. -/
theorem normalize_quotes_bucket_ne_nil (ccs : List CostCode) (q : List (String × QVal))
    (c v : String) (l : List Quote)
    (h : quoteVariantLookup (normalize_quotes_map ccs q) c v = some l) : l ≠ [] := by
  unfold quoteVariantLookup at h
  by_cases hc : (presCodes ccs).contains c = true
  · obtain ⟨b, hb, hv⟩ := normalize_quotes_present ccs q c hc
    rw [hb] at h
    simp only at h
    rw [hv v] at h
    unfold chainVal at h
    by_cases hlast : ((neededSeq ccs c).getLastD []).contains v = true
    · rw [if_pos hlast] at h
      simp only [Option.some_inj] at h
      by_cases hall : ((neededSeq ccs c).all fun A => A.contains v) = true
      · rw [if_pos hall] at h
        rw [← h]
        exact nonemptify_ne_nil _
      · rw [if_neg hall] at h
        rw [← h]
        simp [emptyQuote]
    · rw [if_neg hlast] at h
      exact absurd h (by simp)
  · rw [normalize_quotes_absent ccs q c hc] at h
    exact absurd h (by simp)

/-- Extensional equality of two quotes-map entries: variant dicts are
compared by lookup (Python `==` ignores insertion order), anything else
by structure. -/
def QValEqv : Option QVal → Option QVal → Prop
  | some (QVal.qdict d₁), some (QVal.qdict d₂) => ∀ v, dlookup v d₁ = dlookup v d₂
  | o₁, o₂ => o₁ = o₂

/-- Running `normalize_quotes` twice gives, at every code, an entry with
exactly the lookups of the single run. -/
theorem normalize_quotes_map_idem (ccs : List CostCode) (q : List (String × QVal))
    (c : String) :
    QValEqv (dlookup c (normalize_quotes_map ccs (normalize_quotes_map ccs q)))
      (dlookup c (normalize_quotes_map ccs q)) := by
  by_cases hc : (presCodes ccs).contains c = true
  · obtain ⟨b₁, hb₁, hv₁⟩ := normalize_quotes_present ccs q c hc
    obtain ⟨b₂, hb₂, hv₂⟩ := normalize_quotes_present ccs (normalize_quotes_map ccs q) c hc
    rw [hb₁, hb₂]
    show ∀ v, dlookup v b₂ = dlookup v b₁
    intro v
    rw [hv₂ v, hv₁ v, hb₁]
    unfold chainVal
    by_cases hlast : ((neededSeq ccs c).getLastD []).contains v = true
    · rw [if_pos hlast, if_pos hlast]
      by_cases hall : ((neededSeq ccs c).all fun A => A.contains v) = true
      · rw [if_pos hall, if_pos hall]
        show some (nonemptify (dlookup v b₁)) = _
        rw [hv₁ v]
        unfold chainVal
        rw [if_pos hlast, if_pos hall, nonemptify_idem]
      · rw [if_neg hall, if_neg hall]
    · rw [if_neg hlast, if_neg hlast]
  · rw [normalize_quotes_absent ccs q c hc, normalize_quotes_absent ccs _ c hc]
    rfl

/-! ## Spec identifiers and the bid sheet -/

/-- Source `frame_spec_id`: `f"{base_code}||{variant}"`. -/
def mkSpec (c v : String) : String := String.mk (c.data ++ ('|' :: '|' :: v.data))

/-- Source `build_valid_frame_spec_ids`: every `code||variant` for a
non-blank code.  (The source builds a Python set; here a list whose
membership is what matters.) -/
def validSpecIds (ccs : List CostCode) : List String :=
  (ccs.filter (fun cc => ccCode cc ≠ "")).foldr
    (fun cc acc => (variants_for_cc cc.alts).map (mkSpec (ccCode cc)) ++ acc) []

/-- Field defaults seeded into a bid-sheet entry by `normalize_bid_sheet`. -/
def seedEntry (e : StrDict) : StrDict :=
  dsetdefault "color" "None"
    (dsetdefault "notes" ""
      (dsetdefault "markup_amt" ""
        (dsetdefault "markup_pct" "" e)))

/-- One iteration of the reconciliation loop of `normalize_bid_sheet`:
`setdefault(spec_id, {})` followed by the four field `setdefault`s,
mutating the entry in place. -/
def nbsStep (d : List (String × StrDict)) (k : String) : List (String × StrDict) :=
  dinsert k (seedEntry ((dlookup k d).getD [])) d

/-- Source `normalize_bid_sheet`, acting on the bid-sheet map: seed every
valid spec id, then delete the invalid ones. -/
def normalize_bid_sheet_map (ccs : List CostCode) (bs : List (String × StrDict)) :
    List (String × StrDict) :=
  let valid := validSpecIds ccs
  ((valid.foldl nbsStep bs).filter (fun kv => valid.contains kv.1))

theorem dsetdefault_of_isSome {α : Type} (k : String) (v : α) (d : List (String × α))
    (h : (dlookup k d).isSome = true) : dsetdefault k v d = d := by
  unfold dsetdefault
  rw [if_pos h]

theorem seedEntry_isSome_pct (e : StrDict) :
    (dlookup "markup_pct" (seedEntry e)).isSome = true := by
  unfold seedEntry
  rw [dlookup_dsetdefault, if_neg (by decide), dlookup_dsetdefault, if_neg (by decide),
    dlookup_dsetdefault, if_neg (by decide), dlookup_dsetdefault, if_pos rfl]
  rcases dlookup "markup_pct" e with _ | w <;> simp

theorem seedEntry_isSome_amt (e : StrDict) :
    (dlookup "markup_amt" (seedEntry e)).isSome = true := by
  unfold seedEntry
  rw [dlookup_dsetdefault, if_neg (by decide), dlookup_dsetdefault, if_neg (by decide),
    dlookup_dsetdefault, if_pos rfl]
  rcases h : dlookup "markup_amt" (dsetdefault "markup_pct" "" e) with _ | w <;> simp [h]

theorem seedEntry_isSome_notes (e : StrDict) :
    (dlookup "notes" (seedEntry e)).isSome = true := by
  unfold seedEntry
  rw [dlookup_dsetdefault, if_neg (by decide), dlookup_dsetdefault, if_pos rfl]
  rcases h : dlookup "notes" (dsetdefault "markup_amt" "" (dsetdefault "markup_pct" "" e))
    with _ | w <;> simp [h]

theorem seedEntry_isSome_color (e : StrDict) :
    (dlookup "color" (seedEntry e)).isSome = true := by
  unfold seedEntry
  rw [dlookup_dsetdefault, if_pos rfl]
  rcases h : dlookup "color"
      (dsetdefault "notes" "" (dsetdefault "markup_amt" "" (dsetdefault "markup_pct" "" e)))
    with _ | w <;> simp [h]

/-- Seeding an already-seeded entry changes nothing. -/
theorem seedEntry_idem (e : StrDict) : seedEntry (seedEntry e) = seedEntry e := by
  show dsetdefault "color" "None" (dsetdefault "notes" "" (dsetdefault "markup_amt" ""
    (dsetdefault "markup_pct" "" (seedEntry e)))) = seedEntry e
  rw [dsetdefault_of_isSome _ _ _ (seedEntry_isSome_pct e),
    dsetdefault_of_isSome _ _ _ (seedEntry_isSome_amt e),
    dsetdefault_of_isSome _ _ _ (seedEntry_isSome_notes e),
    dsetdefault_of_isSome _ _ _ (seedEntry_isSome_color e)]

theorem nbs_fold_lookup (valid : List String) (bs : List (String × StrDict)) (k : String) :
    dlookup k (valid.foldl nbsStep bs) =
      if valid.contains k then some (seedEntry ((dlookup k bs).getD []))
      else dlookup k bs := by
  induction valid generalizing bs with
  | nil => simp
  | cons v rest ih =>
    rw [List.foldl_cons, ih]
    by_cases hk : k = v
    · subst hk
      have h₁ : dlookup k (nbsStep bs k) = some (seedEntry ((dlookup k bs).getD [])) := by
        unfold nbsStep
        exact dlookup_dinsert_self _ _ _
      by_cases hr : rest.contains k = true
      · rw [if_pos hr, h₁, if_pos (by simp [List.contains_cons])]
        simp [seedEntry_idem]
      · rw [if_neg hr, h₁, if_pos (by simp [List.contains_cons])]
    · have h₁ : dlookup k (nbsStep bs v) = dlookup k bs := by
        unfold nbsStep
        exact dlookup_dinsert_ne _ _ _ _ hk
      have hcc : (rest.contains k = true) ↔ ((v :: rest).contains k = true) := by
        simp [List.contains_cons, hk]
      by_cases hr : rest.contains k = true
      · rw [if_pos hr, h₁, if_pos (hcc.mp hr)]
      · rw [if_neg hr, h₁, if_neg (fun h => hr (by simpa [List.contains_cons, hk] using h))]

/-- Lookup in the normalized bid sheet. -/
theorem normalize_bid_sheet_map_lookup (ccs : List CostCode)
    (bs : List (String × StrDict)) (k : String) :
    dlookup k (normalize_bid_sheet_map ccs bs) =
      if (validSpecIds ccs).contains k then some (seedEntry ((dlookup k bs).getD []))
      else none := by
  unfold normalize_bid_sheet_map
  rw [dlookup_filter_key, nbs_fold_lookup]
  by_cases hk : (validSpecIds ccs).contains k = true
  · rw [if_pos hk, if_pos hk, if_pos hk]
  · rw [if_neg hk, if_neg hk]

/-- The reconciliation fold is the identity on an already-normalized bid
sheet. -/
theorem nbs_fold_fix (ccs : List CostCode) (bs : List (String × StrDict))
    (L : List String) (h : ∀ k ∈ L, (validSpecIds ccs).contains k = true) :
    L.foldl nbsStep (normalize_bid_sheet_map ccs bs) = normalize_bid_sheet_map ccs bs := by
  induction L with
  | nil => rfl
  | cons k rest ih =>
    rw [List.foldl_cons]
    have hk := h k (List.mem_cons_self k rest)
    have hL := normalize_bid_sheet_map_lookup ccs bs k
    rw [if_pos hk] at hL
    have hstep : nbsStep (normalize_bid_sheet_map ccs bs) k =
        normalize_bid_sheet_map ccs bs := by
      unfold nbsStep
      rw [hL]
      simp only [Option.getD_some]
      rw [seedEntry_idem]
      exact dinsert_lookup_self _ _ _ hL
    rw [hstep]
    exact ih (fun k₁ hk₁ => h k₁ (List.mem_cons_of_mem _ hk₁))

/-- Normalizing the bid sheet twice is literally the identity on the
second run. -/
theorem normalize_bid_sheet_map_idem (ccs : List CostCode)
    (bs : List (String × StrDict)) :
    normalize_bid_sheet_map ccs (normalize_bid_sheet_map ccs bs) =
      normalize_bid_sheet_map ccs bs := by
  show ((validSpecIds ccs).foldl nbsStep (normalize_bid_sheet_map ccs bs)).filter _ =
    normalize_bid_sheet_map ccs bs
  rw [nbs_fold_fix ccs bs _ (fun k hk => contains_true_iff.mpr hk)]
  rw [List.filter_eq_self]
  intro kv hkv
  unfold normalize_bid_sheet_map at hkv
  exact (List.mem_filter.mp hkv).2

/-! ## Frame schedules: rows, materials, sections

Shape conventions: a `…other` constructor stands for a truthy value of the
wrong type (the `isinstance` checks of the source branch on exactly these
shapes); a `None` stored under a key behaves, everywhere the source touches
it, like a missing key (both are falsy and both fail the `isinstance`
checks), so it is modelled as the absent `Option`.  Two spots in the
source would raise on ill-typed data rather than repair it — `.extend` on
a non-list legacy-merge target and the sealants loop over a non-dict
material — and are modelled as leaving the value unchanged; every theorem
below evaluates jobs outside those raising shapes. -/

/-- Element of a section's `rows` list: a row dict or a non-dict value. -/
inductive RowVal : Type where
  | rdict : StrDict → RowVal
  | rother : RowVal
deriving DecidableEq

/-- Value of a section's `"rows"` key. -/
inductive RowsVal : Type where
  | rsList : List RowVal → RowsVal
  | rsOther : RowsVal
deriving DecidableEq

/-- Element of a section's `materials` list. -/
inductive MatVal : Type where
  | mdict : StrDict → MatVal
  | mother : MatVal
deriving DecidableEq

/-- Value of a section's `"materials"` key. -/
inductive MatsVal : Type where
  | msList : List MatVal → MatsVal
  | msOther : MatsVal
deriving DecidableEq

/-- Section dict: the five keys the engine reads or writes (`id`,
`spec_id`, `rows`, `materials`, `install_material_total`); an absent
`Option` is a missing key.  Other keys are never touched and are omitted. -/
structure Section where
  sid : Option String
  spec_id : Option String
  rows : Option RowsVal
  materials : Option MatsVal
  imt : Option ℤ
deriving DecidableEq

/-- Element of a spec's section list. -/
inductive SecVal : Type where
  | sdict : Section → SecVal
  | sother : SecVal
deriving DecidableEq

/-- Value of one `job["frame_schedules"]` entry: the healthy list of
sections, a bare section dict, `None`, or another malformed value. -/
inductive FSVal : Type where
  | fsList : List SecVal → FSVal
  | fsSec : Section → FSVal
  | fsNone : FSVal
  | fsOther : FSVal
deriving DecidableEq

/-- Fixed stand-in for `str(uuid.uuid4())`: ids are stored but never
compared or parsed by the engine. -/
def uuidPlaceholder : String := "00000000-0000-4000-8000-000000000000"

/-- Source `default_schedule_row`. -/
def default_schedule_row : StrDict :=
  [("spec_mark", ""), ("qty", ""), ("width", ""), ("height", ""), ("sqft", ""),
   ("perim", ""), ("caulk_passes", ""), ("caulk_lf", ""), ("head_sill", ""),
   ("head", ""), ("jamb", ""), ("sill", ""), ("type", ""), ("matl", ""),
   ("finish", ""), ("notes", "")]

/-- Source `default_materials_template` / `default_materials`. -/
def default_materials : List MatVal :=
  [MatVal.mdict [("key", "bracing"), ("label", "Bracing and Anchoring"),
     ("basis", "perim_subtotal"), ("factor", "1.00"), ("rate", "1.50"),
     ("qty", ""), ("unit", "Linear Foot")],
   MatVal.mdict [("key", "sheet_metal"), ("label", "Sheet Metal Membrane Air Barriers"),
     ("basis", "perim_subtotal"), ("factor", "1.00"), ("rate", "1.00"),
     ("qty", ""), ("unit", "Linear Foot")],
   MatVal.mdict [("key", "flashing"), ("label", "Flashing and Sheet Metal"),
     ("basis", "head_sill_subtotal"), ("factor", "1.00"), ("rate", "8.00"),
     ("qty", ""), ("unit", "Linear Foot")],
   MatVal.mdict [("key", "backer_rods"), ("label", "Backer Rods"),
     ("basis", "caulk_lf_subtotal"), ("factor", "1.00"), ("rate", "0.50"),
     ("qty", ""), ("unit", "Linear Foot")],
   MatVal.mdict [("key", "sealants"), ("label", "Joint Sealants"),
     ("basis", "caulk_lf_subtotal"), ("factor", "0.0833"), ("rate", "12.00"),
     ("qty", ""), ("unit", "Sausage")],
   MatVal.mdict [("key", "tie_back"), ("label", "Tie Back"),
     ("basis", "manual"), ("factor", ""), ("rate", "45.00"),
     ("qty", ""), ("unit", "Each")],
   MatVal.mdict [("key", "backpans"), ("label", "Backpans Insulation"),
     ("basis", "manual"), ("factor", ""), ("rate", "48.32"),
     ("qty", ""), ("unit", "Linear Foot")]]

/-- Source `default_schedule_section`. -/
def default_schedule_section (spec_id : String) : Section :=
  { sid := some uuidPlaceholder,
    spec_id := some spec_id,
    rows := some (RowsVal.rsList [RowVal.rdict default_schedule_row]),
    materials := some (MatsVal.msList default_materials),
    imt := some 0 }

/-- Python `row.get(k, "")`. -/
def rget (r : StrDict) (k : String) : String := (dlookup k r).getD ""

/-- Source `qty_populated`: `str(row.get("qty", "")).strip() != ""`. -/
def qty_populated (r : StrDict) : Bool :=
  !(pyStrip (rget r "qty").data).isEmpty

/-- Text written into `sqft`: `str(roundup((wid * hei * qty) / 144.0))`. -/
def sqftText (r : StrDict) : String :=
  toString (roundup ((safe_float (rget r "width") * safe_float (rget r "height") *
    safe_float (rget r "qty")) / 144))

/-- Text written into `perim`:
`str(roundup(2.0 * ((wid / 12.0) + (hei / 12.0)) * qty))`. -/
def perimText (r : StrDict) : String :=
  toString (roundup (2 * ((safe_float (rget r "width") / 12) +
    (safe_float (rget r "height") / 12)) * safe_float (rget r "qty")))

/-- Text written into `head_sill`: `str(roundup(qty * wid / 6.0))`. -/
def headSillText (r : StrDict) : String :=
  toString (roundup (safe_float (rget r "qty") * safe_float (rget r "width") / 6))

/-- Row after the first write of the positive branch of
`calc_schedule_row`. -/
def calcSqft (r : StrDict) : StrDict := dinsert "sqft" (sqftText r) r

/-- Row after the second write. -/
def calcPerim (r : StrDict) : StrDict := dinsert "perim" (perimText r) (calcSqft r)

/-- Text written into `caulk_lf`: the source re-reads the just-written
`perim` cell from the row and multiplies by the caulk-passes count, blank
when no passes. -/
def caulkText (r : StrDict) : String :=
  if 0 < safe_float (rget (calcPerim r) "caulk_passes") then
    toString (roundup ((safe_int (rget (calcPerim r) "perim") : ℚ) *
      safe_float (rget (calcPerim r) "caulk_passes")))
  else ""

/-- Source `calc_schedule_row`.  The four derived fields are cleared when
`qty ≤ 0` and recomputed with ceiling rounding otherwise. -/
def calc_schedule_row (r : StrDict) : StrDict :=
  if safe_float (rget r "qty") ≤ 0 then
    dinsert "head_sill" "" (dinsert "caulk_lf" "" (dinsert "perim" "" (dinsert "sqft" "" r)))
  else
    dinsert "head_sill" (headSillText r) (dinsert "caulk_lf" (caulkText r) (calcPerim r))

/-- One column of `schedule_subtotals`: sum over the rows whose qty text
is populated.  (A non-dict row raises in the source; modelled as 0.) -/
def schedule_subtotal (rows : List RowVal) (k : String) : ℤ :=
  (rows.map (fun rv =>
    match rv with
    | RowVal.rdict r =>
      if qty_populated r then
        match dlookup k r with
        | some s => safe_int s
        | none => 0
      else 0
    | RowVal.rother => 0)).sum

/-- Source `material_qty_for_row` with the three basis subtotals passed
explicitly. -/
def material_qty_for_row (m : StrDict) (subPerim subCaulk subHS : ℤ) : ℚ :=
  let basis := (dlookup "basis" m).getD "manual"
  let factor := safe_float ((dlookup "factor" m).getD "")
  if basis = "perim_subtotal" then (subPerim : ℚ) * factor
  else if basis = "head_sill_subtotal" then (subHS : ℚ) * factor
  else if basis = "caulk_lf_subtotal" then (subCaulk : ℚ) * factor
  else safe_float ((dlookup "qty" m).getD "")

/-- Sealants auto-seed: a material keyed `"sealants"` with a blank factor
gets `0.0833`. -/
def sealantsFix (m : StrDict) : StrDict :=
  if (dlookup "key" m).getD "" = "sealants" &&
      (pyStrip ((dlookup "factor" m).getD "").data).isEmpty then
    dinsert "factor" "0.0833" m
  else m

/-- Cost contribution of one material given the basis subtotals. -/
def materialCost (m : StrDict) (subPerim subCaulk subHS : ℤ) : ℤ :=
  let qv := material_qty_for_row m subPerim subCaulk subHS
  let rv := safe_float ((dlookup "rate" m).getD "")
  if qv * rv = 0 then 0 else roundup (qv * rv)

/-- Rows list of a section, `section.get("rows", []) or []` (a truthy
non-list raises in the source). -/
def rowsOf (s : Section) : List RowVal :=
  match s.rows with
  | some (RowsVal.rsList rs) => rs
  | _ => []

/-- Materials list of a section, `section.get("materials", []) or []`. -/
def matsOf (s : Section) : List MatVal :=
  match s.materials with
  | some (MatsVal.msList ms) => ms
  | _ => []

/-- In-place recalculation of one rows-list element (non-dict skipped). -/
def calcRowVal : RowVal → RowVal
  | RowVal.rdict r => RowVal.rdict (calc_schedule_row r)
  | RowVal.rother => RowVal.rother

/-- Sealants seeding of one materials-list element (non-dict raises in the
source loop of `normalize_frame_schedules` and is skipped by
`recompute_section_totals`; modelled as unchanged). -/
def fixMatVal : MatVal → MatVal
  | MatVal.mdict m => MatVal.mdict (sealantsFix m)
  | MatVal.mother => MatVal.mother

/-- Install-material total over already-recalculated rows and
already-seeded materials. -/
def sectionTotal (rows₁ : List RowVal) (mats₁ : List MatVal) : ℤ :=
  (mats₁.map (fun mv =>
    match mv with
    | MatVal.mdict m =>
      materialCost m (schedule_subtotal rows₁ "perim")
        (schedule_subtotal rows₁ "caulk_lf") (schedule_subtotal rows₁ "head_sill")
    | MatVal.mother => 0)).sum

/-- Source `recompute_section_totals`: recalculate every dict row in
place, subtotal the rows, seed the sealants factor, sum the material
costs, store the total.  Returns the updated section and the total. -/
def recompute_section_totals (s : Section) : Section × ℤ :=
  let rows₁ := (rowsOf s).map calcRowVal
  let mats₁ := (matsOf s).map fixMatVal
  let total := sectionTotal rows₁ mats₁
  ({ s with
      rows := (match s.rows with
        | some (RowsVal.rsList _) => some (RowsVal.rsList rows₁)
        | x => x),
      materials := (match s.materials with
        | some (MatsVal.msList _) => some (MatsVal.msList mats₁)
        | x => x),
      imt := some total }, total)

/-- Recompute one section-list element (non-dict elements contribute 0). -/
def recomputeSecVal : SecVal → SecVal × ℤ
  | SecVal.sdict s => ((SecVal.sdict (recompute_section_totals s).1), (recompute_section_totals s).2)
  | SecVal.sother => (SecVal.sother, 0)

/-- Recompute one `frame_schedules` entry: sections recomputed in place,
total accumulated over the dict sections; a non-list value is left alone
with total 0. -/
def recomputeFSVal : FSVal → FSVal × ℤ
  | FSVal.fsList svs =>
    (FSVal.fsList (svs.map (fun sv => (recomputeSecVal sv).1)),
     (svs.map (fun sv => (recomputeSecVal sv).2)).sum)
  | x => (x, 0)

/-- Source `compute_frame_schedule_rollups`: recompute every spec entry
(mutating its sections) and write each total into the rollup map. -/
def rollups_maps (fs : List (String × FSVal)) (roll : List (String × ℤ)) :
    List (String × FSVal) × List (String × ℤ) :=
  (fs.map (fun kv => (kv.1, (recomputeFSVal kv.2).1)),
   fs.foldl (fun r kv => dinsert kv.1 (recomputeFSVal kv.2).2 r) roll)

/-! ## Frame-schedule normalization -/

/-- Python `"||" in key`. -/
def hasPP : List Char → Bool
  | c₁ :: c₂ :: rest => if c₁ = '|' && c₂ = '|' then true else hasPP (c₂ :: rest)
  | _ => false

/-- Split on the first `"||"` (Python `split("||", 1)`). -/
def splitPP : List Char → Option (List Char × List Char)
  | '|' :: '|' :: rest => some ([], rest)
  | c :: t => (splitPP t).map (fun p => (c :: p.1, p.2))
  | [] => none

/-- Source `parse_frame_spec_id`. -/
def parse_frame_spec_id (s : String) : String × String :=
  match splitPP s.data with
  | some (a, b) =>
    let v := String.mk (pyStrip b)
    (String.mk (pyStrip a), if v = "" then "BASE" else v)
  | none => (String.mk (pyStrip s.data), "BASE")

/-- Legacy-key migration step of `normalize_frame_schedules` for one
snapshot key: a key with no `"||"` is deleted when blank, merged into the
`code||BASE` entry when that exists, renamed to it otherwise. -/
def migrateStep (fs : List (String × FSVal)) (k : String) : List (String × FSVal) :=
  if hasPP k.data then fs
  else
    let base := String.mk (pyStrip k.data)
    if base = "" then derase k fs
    else
      let nk := mkSpec base "BASE"
      match dlookup nk fs with
      | some tgt =>
        let tgt₁ := match tgt, (dlookup k fs).getD FSVal.fsNone with
          | FSVal.fsList tl, FSVal.fsList vl => FSVal.fsList (tl ++ vl)
          | FSVal.fsList tl, FSVal.fsSec s => FSVal.fsList (tl ++ [SecVal.sdict s])
          | t, _ => t
        derase k (dinsert nk tgt₁ fs)
      | none =>
        match dlookup k fs with
        | some v => dinsert nk v (derase k fs)
        | none => fs

/-- Shape repair of one `frame_schedules` value into a section list
(`None` → `[]`, bare dict → one section built on the defaults, non-list →
`[]`). -/
def sectionsOf (k : String) : FSVal → List SecVal
  | FSVal.fsList svs => svs
  | FSVal.fsSec s =>
    let rows := match s.rows with
      | some (RowsVal.rsList (r :: t)) => RowsVal.rsList (r :: t)
      | some RowsVal.rsOther => RowsVal.rsOther
      | _ => RowsVal.rsList [RowVal.rdict default_schedule_row]
    let mats := match s.materials with
      | some (MatsVal.msList (m :: t)) => MatsVal.msList (m :: t)
      | some MatsVal.msOther => MatsVal.msOther
      | _ => MatsVal.msList default_materials
    [SecVal.sdict { default_schedule_section k with
      rows := some rows, materials := some mats }]
  | FSVal.fsNone => []
  | FSVal.fsOther => []

/-- Python `base.update(r)` for string dicts `base`, `r`: `base`'s keys in
place with `r`'s values where present, then `r`'s new keys appended in
order. -/
def pyUpdate (base r : StrDict) : StrDict :=
  base.map (fun kv => (kv.1, ((dlookup kv.1 r).getD kv.2))) ++
    r.filter (fun kv => dlookup kv.1 base = none)

/-- Row-element repair of `normalize_frame_schedules`:
`base = default_schedule_row(); if isinstance(r, dict): base.update(r)`. -/
def repairRowVal : RowVal → RowVal
  | RowVal.rdict r => RowVal.rdict (pyUpdate default_schedule_row r)
  | RowVal.rother => RowVal.rdict default_schedule_row

/-- Rows list a section is repaired from: the `setdefault("rows", ...)`
value when a non-empty list, the single default row otherwise (the
`if not isinstance(s["rows"], list) or len(s["rows"]) == 0` replacement). -/
def rowsListOf (s₀ : Section) : List RowVal :=
  match s₀.rows.getD (RowsVal.rsList [RowVal.rdict default_schedule_row]) with
  | RowsVal.rsList (r :: t) => r :: t
  | _ => [RowVal.rdict default_schedule_row]

/-- Materials list a section is repaired from, defaulting to the template
set when missing, empty, or not a list. -/
def matsListOf (s₀ : Section) : List MatVal :=
  match s₀.materials.getD (MatsVal.msList default_materials) with
  | MatsVal.msList (m :: t) => m :: t
  | _ => default_materials

/-- Per-section shape repair of `normalize_frame_schedules`: defaults for
missing fields, the spec id stamped on, rows list rebuilt with every row
merged over the default row, materials list defaulted and sealants
seeded. -/
def repairSection (k : String) (sv : SecVal) : Section :=
  let s₀ := match sv with
    | SecVal.sdict s => s
    | SecVal.sother => default_schedule_section k
  { sid := some (s₀.sid.getD uuidPlaceholder),
    spec_id := some k,
    rows := some (RowsVal.rsList ((rowsListOf s₀).map repairRowVal)),
    materials := some (MatsVal.msList ((matsListOf s₀).map fixMatVal)),
    imt := some (s₀.imt.getD 0) }

/-- Repair and recompute every section of one entry. -/
def repairFSVal (k : String) (v : FSVal) : FSVal :=
  FSVal.fsList ((sectionsOf k v).map (fun sv =>
    SecVal.sdict (recompute_section_totals (repairSection k sv)).1))

/-- Legacy-key migration pass over a snapshot of the current keys. -/
def nfsStageA (fs : List (String × FSVal)) : List (String × FSVal) :=
  (fs.map Prod.fst).foldl migrateStep fs

/-- Deletion of entries whose key is not a valid spec id. -/
def nfsStageB (ccs : List CostCode) (a : List (String × FSVal)) :
    List (String × FSVal) :=
  a.filter (fun kv => (validSpecIds ccs).contains kv.1)

/-- Creation of missing valid specs as empty lists. -/
def nfsStageC (ccs : List CostCode) (b : List (String × FSVal)) :
    List (String × FSVal) :=
  (validSpecIds ccs).foldl (fun d k => dsetdefault k (FSVal.fsList []) d) b

/-- Per-entry shape repair and section recomputation. -/
def nfsStageD (c : List (String × FSVal)) : List (String × FSVal) :=
  c.map (fun kv => (kv.1, repairFSVal kv.1 kv.2))

/-- Source `normalize_frame_schedules`, acting on the two maps: legacy-key
migration over a key snapshot, deletion of invalid specs, creation of
missing valid specs (as empty lists), per-section shape repair and
recomputation, then the rollup pass. -/
def normalize_frame_schedules_maps (ccs : List CostCode)
    (fs : List (String × FSVal)) (roll : List (String × ℤ)) :
    List (String × FSVal) × List (String × ℤ) :=
  rollups_maps (nfsStageD (nfsStageC ccs (nfsStageB ccs (nfsStageA fs)))) roll

/-! ## The job record -/

/-- Aggregate job state: the engine's five structured fields.  The flat
job-info strings are never touched by normalization and are omitted. -/
structure Job where
  cost_codes : List CostCode
  quotes : List (String × QVal)
  bid_sheet : List (String × StrDict)
  frame_schedules : List (String × FSVal)
  frame_schedule_rollups : List (String × ℤ)
deriving DecidableEq

def normalize_quotes (j : Job) : Job :=
  { j with quotes := normalize_quotes_map j.cost_codes j.quotes }

def normalize_bid_sheet (j : Job) : Job :=
  { j with bid_sheet := normalize_bid_sheet_map j.cost_codes j.bid_sheet }

def normalize_frame_schedules (j : Job) : Job :=
  { j with
    frame_schedules :=
      (normalize_frame_schedules_maps j.cost_codes j.frame_schedules
        j.frame_schedule_rollups).1,
    frame_schedule_rollups :=
      (normalize_frame_schedules_maps j.cost_codes j.frame_schedules
        j.frame_schedule_rollups).2 }

def compute_frame_schedule_rollups (j : Job) : Job :=
  { j with
    frame_schedules := (rollups_maps j.frame_schedules j.frame_schedule_rollups).1,
    frame_schedule_rollups := (rollups_maps j.frame_schedules j.frame_schedule_rollups).2 }

/-- The full normalization pass, in the order `ensure_job_defaults` and
`compute_bid_sheet_total` run it. -/
def normalizePass (j : Job) : Job :=
  normalize_frame_schedules (normalize_bid_sheet (normalize_quotes j))

/-! ## Row and section recomputation is idempotent -/

theorem rget_dinsert_self (k v : String) (r : StrDict) :
    rget (dinsert k v r) k = v := by
  unfold rget
  rw [dlookup_dinsert_self]
  rfl

theorem rget_dinsert_ne (k k₁ v : String) (r : StrDict) (h : k₁ ≠ k) :
    rget (dinsert k v r) k₁ = rget r k₁ := by
  unfold rget
  rw [dlookup_dinsert_ne _ _ _ _ h]

theorem rget_calcPerim_ne (r : StrDict) (k : String)
    (h₁ : k ≠ "sqft") (h₂ : k ≠ "perim") : rget (calcPerim r) k = rget r k := by
  unfold calcPerim calcSqft
  rw [rget_dinsert_ne _ _ _ _ h₂, rget_dinsert_ne _ _ _ _ h₁]

theorem rget_calcPerim_perim (r : StrDict) :
    rget (calcPerim r) "perim" = perimText r := by
  unfold calcPerim
  exact rget_dinsert_self _ _ _

/-- Canonical form of the caulk text, with the row reads resolved. -/
theorem caulkText_eq (r : StrDict) :
    caulkText r =
      if 0 < safe_float (rget r "caulk_passes") then
        toString (roundup ((safe_int (perimText r) : ℚ) *
          safe_float (rget r "caulk_passes")))
      else "" := by
  unfold caulkText
  rw [rget_calcPerim_ne r _ (by simp) (by simp), rget_calcPerim_perim]

/-- Raw inputs of `calc_schedule_row` are untouched by it. -/
theorem rget_calc_schedule_row (r : StrDict) (k : String)
    (h₁ : k ≠ "sqft") (h₂ : k ≠ "perim") (h₃ : k ≠ "caulk_lf") (h₄ : k ≠ "head_sill") :
    rget (calc_schedule_row r) k = rget r k := by
  unfold calc_schedule_row
  by_cases hq : safe_float (rget r "qty") ≤ 0
  · rw [if_pos hq, rget_dinsert_ne _ _ _ _ h₄, rget_dinsert_ne _ _ _ _ h₃,
      rget_dinsert_ne _ _ _ _ h₂, rget_dinsert_ne _ _ _ _ h₁]
  · rw [if_neg hq, rget_dinsert_ne _ _ _ _ h₄, rget_dinsert_ne _ _ _ _ h₃,
      rget_calcPerim_ne _ _ h₁ h₂]

theorem calc_neg (r : StrDict) (h : safe_float (rget r "qty") ≤ 0) :
    calc_schedule_row r =
      dinsert "head_sill" "" (dinsert "caulk_lf" "" (dinsert "perim" ""
        (dinsert "sqft" "" r))) := by
  unfold calc_schedule_row
  rw [if_pos h]

theorem calc_pos (r : StrDict) (h : ¬(safe_float (rget r "qty") ≤ 0)) :
    calc_schedule_row r =
      dinsert "head_sill" (headSillText r)
        (dinsert "caulk_lf" (caulkText r) (calcPerim r)) := by
  unfold calc_schedule_row
  rw [if_neg h]

/-- The four derived cells of a recalculated row (positive branch). -/
theorem dlookup_calc_pos_sqft (r : StrDict) (h : ¬(safe_float (rget r "qty") ≤ 0)) :
    dlookup "sqft" (calc_schedule_row r) = some (sqftText r) := by
  rw [calc_pos r h, dlookup_dinsert_ne _ _ _ _ (by simp), dlookup_dinsert_ne _ _ _ _ (by simp)]
  unfold calcPerim calcSqft
  rw [dlookup_dinsert_ne _ _ _ _ (by simp), dlookup_dinsert_self]

theorem dlookup_calc_pos_perim (r : StrDict) (h : ¬(safe_float (rget r "qty") ≤ 0)) :
    dlookup "perim" (calc_schedule_row r) = some (perimText r) := by
  rw [calc_pos r h, dlookup_dinsert_ne _ _ _ _ (by simp), dlookup_dinsert_ne _ _ _ _ (by simp)]
  unfold calcPerim
  rw [dlookup_dinsert_self]

theorem dlookup_calc_pos_caulk (r : StrDict) (h : ¬(safe_float (rget r "qty") ≤ 0)) :
    dlookup "caulk_lf" (calc_schedule_row r) = some (caulkText r) := by
  rw [calc_pos r h, dlookup_dinsert_ne _ _ _ _ (by simp), dlookup_dinsert_self]

theorem dlookup_calc_pos_hs (r : StrDict) (h : ¬(safe_float (rget r "qty") ≤ 0)) :
    dlookup "head_sill" (calc_schedule_row r) = some (headSillText r) := by
  rw [calc_pos r h, dlookup_dinsert_self]

/-- The raw reads that feed the derived texts agree between a row and its
recalculation, so the texts agree as well. -/
theorem sqftText_calc (r : StrDict) : sqftText (calc_schedule_row r) = sqftText r := by
  unfold sqftText
  rw [rget_calc_schedule_row r "width" (by simp) (by simp) (by simp) (by simp),
    rget_calc_schedule_row r "height" (by simp) (by simp) (by simp) (by simp),
    rget_calc_schedule_row r "qty" (by simp) (by simp) (by simp) (by simp)]

theorem perimText_calc (r : StrDict) : perimText (calc_schedule_row r) = perimText r := by
  unfold perimText
  rw [rget_calc_schedule_row r "width" (by simp) (by simp) (by simp) (by simp),
    rget_calc_schedule_row r "height" (by simp) (by simp) (by simp) (by simp),
    rget_calc_schedule_row r "qty" (by simp) (by simp) (by simp) (by simp)]

theorem headSillText_calc (r : StrDict) :
    headSillText (calc_schedule_row r) = headSillText r := by
  unfold headSillText
  rw [rget_calc_schedule_row r "width" (by simp) (by simp) (by simp) (by simp),
    rget_calc_schedule_row r "qty" (by simp) (by simp) (by simp) (by simp)]

theorem calc_schedule_row_idem (r : StrDict) :
    calc_schedule_row (calc_schedule_row r) = calc_schedule_row r := by
  have hq : rget (calc_schedule_row r) "qty" = rget r "qty" :=
    rget_calc_schedule_row r _ (by simp) (by simp) (by simp) (by simp)
  by_cases h : safe_float (rget r "qty") ≤ 0
  · have h₂ : safe_float (rget (calc_schedule_row r) "qty") ≤ 0 := by rw [hq]; exact h
    rw [calc_neg _ h₂]
    have hr := calc_neg r h
    have lsq : dlookup "sqft" (calc_schedule_row r) = some "" := by
      rw [hr, dlookup_dinsert_ne _ _ _ _ (by simp), dlookup_dinsert_ne _ _ _ _ (by simp),
        dlookup_dinsert_ne _ _ _ _ (by simp), dlookup_dinsert_self]
    have lpe : dlookup "perim" (calc_schedule_row r) = some "" := by
      rw [hr, dlookup_dinsert_ne _ _ _ _ (by simp), dlookup_dinsert_ne _ _ _ _ (by simp),
        dlookup_dinsert_self]
    have lcl : dlookup "caulk_lf" (calc_schedule_row r) = some "" := by
      rw [hr, dlookup_dinsert_ne _ _ _ _ (by simp), dlookup_dinsert_self]
    have lhs₁ : dlookup "head_sill" (calc_schedule_row r) = some "" := by
      rw [hr, dlookup_dinsert_self]
    rw [dinsert_lookup_self _ _ _ lsq, dinsert_lookup_self _ _ _ lpe,
      dinsert_lookup_self _ _ _ lcl, dinsert_lookup_self _ _ _ lhs₁]
  · have h₂ : ¬(safe_float (rget (calc_schedule_row r) "qty") ≤ 0) := by rw [hq]; exact h
    rw [calc_pos _ h₂]
    have hsq : calcSqft (calc_schedule_row r) = calc_schedule_row r := by
      unfold calcSqft
      rw [sqftText_calc]
      exact dinsert_lookup_self _ _ _ (dlookup_calc_pos_sqft r h)
    have hpe : calcPerim (calc_schedule_row r) = calc_schedule_row r := by
      unfold calcPerim
      rw [hsq, perimText_calc]
      exact dinsert_lookup_self _ _ _ (dlookup_calc_pos_perim r h)
    have hct : caulkText (calc_schedule_row r) = caulkText r := by
      rw [caulkText_eq, caulkText_eq r,
        rget_calc_schedule_row r "caulk_passes" (by simp) (by simp) (by simp) (by simp),
        perimText_calc]
    rw [hpe, hct, headSillText_calc,
      dinsert_lookup_self _ _ _ (dlookup_calc_pos_caulk r h),
      dinsert_lookup_self _ _ _ (dlookup_calc_pos_hs r h)]

theorem sealantsFix_idem (m : StrDict) : sealantsFix (sealantsFix m) = sealantsFix m := by
  unfold sealantsFix
  by_cases h : ((dlookup "key" m).getD "" = "sealants" &&
      (pyStrip ((dlookup "factor" m).getD "").data).isEmpty) = true
  · rw [if_pos h, if_neg]
    rw [dlookup_dinsert_ne _ _ _ _ (by simp), dlookup_dinsert_self]
    simp [pyStrip, pyWS]
  · rw [if_neg h, if_neg h]

theorem calcRowVal_idem (rv : RowVal) : calcRowVal (calcRowVal rv) = calcRowVal rv := by
  rcases rv with r | _
  · show RowVal.rdict (calc_schedule_row (calc_schedule_row r)) =
      RowVal.rdict (calc_schedule_row r)
    rw [calc_schedule_row_idem]
  · rfl

theorem fixMatVal_idem (mv : MatVal) : fixMatVal (fixMatVal mv) = fixMatVal mv := by
  rcases mv with m | _
  · show MatVal.mdict (sealantsFix (sealantsFix m)) = MatVal.mdict (sealantsFix m)
    rw [sealantsFix_idem]
  · rfl

theorem rowsOf_recompute (s : Section) :
    rowsOf (recompute_section_totals s).1 = (rowsOf s).map calcRowVal := by
  unfold recompute_section_totals rowsOf
  rcases h : s.rows with _ | v
  · simp
  · rcases v with rs | _ <;> simp

theorem matsOf_recompute (s : Section) :
    matsOf (recompute_section_totals s).1 = (matsOf s).map fixMatVal := by
  unfold recompute_section_totals matsOf
  rcases h : s.materials with _ | v
  · simp
  · rcases v with ms | _ <;> simp

theorem recompute_section_totals_idem (s : Section) :
    recompute_section_totals (recompute_section_totals s).1 =
      recompute_section_totals s := by
  obtain ⟨sid, spec, rows, mats, imt⟩ := s
  have hR : ∀ rs : List RowVal,
      List.map (calcRowVal ∘ calcRowVal) rs = List.map calcRowVal rs :=
    fun rs => List.map_congr_left (fun rv _ => by
      simp only [Function.comp_apply, calcRowVal_idem])
  have hM : ∀ ms : List MatVal,
      List.map (fixMatVal ∘ fixMatVal) ms = List.map fixMatVal ms :=
    fun ms => List.map_congr_left (fun mv _ => by
      simp only [Function.comp_apply, fixMatVal_idem])
  rcases rows with _ | vr <;> rcases mats with _ | vm
  · simp [recompute_section_totals, rowsOf, matsOf]
  · rcases vm with ms | _ <;>
      simp [recompute_section_totals, rowsOf, matsOf, List.map_map, hM]
  · rcases vr with rs | _ <;>
      simp [recompute_section_totals, rowsOf, matsOf, List.map_map, hR]
  · rcases vr with rs | _ <;> rcases vm with ms | _ <;>
      simp [recompute_section_totals, rowsOf, matsOf, List.map_map, hR, hM]

/-! ## `dict.update` fixpoints

`pyUpdate base r` merges `r` over `base`; a dict that has every `base` key
(in `base`'s order, up front) absorbs further merges.  These lemmas show
the rows produced by the repair stage are exactly such dicts, and that
`calc_schedule_row` keeps them so. -/

theorem dlookup_mapPart {α : Type} (d : List (String × α)) (y : List (String × α))
    (k : String) :
    dlookup k (d.map (fun kv => (kv.1, (dlookup kv.1 y).getD kv.2))) =
      (dlookup k d).map (fun w => (dlookup k y).getD w) := by
  induction d with
  | nil => rfl
  | cons kv t ih =>
    by_cases h : kv.1 = k
    · simp [dlookup, h]
    · simp [dlookup, h, ih]

theorem nodup_dlookup_self {α : Type} (d : List (String × α))
    (hd : (d.map Prod.fst).Nodup) : ∀ kv ∈ d, dlookup kv.1 d = some kv.2 := by
  induction d with
  | nil => intro kv h; exact absurd h (List.not_mem_nil kv)
  | cons kw t ih =>
    intro kv hkv
    rcases List.mem_cons.mp hkv with h | h
    · subst h
      simp [dlookup]
    · have hne : kv.1 ≠ kw.1 := by
        intro he
        have : kw.1 ∈ t.map Prod.fst := by
          rw [← he]
          exact List.mem_map.mpr ⟨kv, h, rfl⟩
        exact (List.nodup_cons.mp hd).1 this
      rw [dlookup, if_neg (fun hc => hne hc.symm)]
      exact ih (List.nodup_cons.mp hd).2 kv h

theorem dlookup_isSome_of_mem_keys {α : Type} (d : List (String × α)) (k : String)
    (h : k ∈ d.map Prod.fst) : (dlookup k d).isSome = true := by
  induction d with
  | nil => simp at h
  | cons kv t ih =>
    by_cases h₂ : kv.1 = k
    · rw [dlookup, if_pos h₂]; rfl
    · rw [dlookup, if_neg h₂]
      apply ih
      rcases List.mem_map.mp h with ⟨kw, hkw, he⟩
      rcases List.mem_cons.mp hkw with h₃ | h₃
      · exact absurd (by rw [← h₃]; exact he) h₂
      · exact List.mem_map.mpr ⟨kw, h₃, he⟩

theorem mem_keys_of_dlookup_isSome {α : Type} (d : List (String × α)) (k : String)
    (h : (dlookup k d).isSome = true) : k ∈ d.map Prod.fst := by
  induction d with
  | nil => simp [dlookup] at h
  | cons kv t ih =>
    by_cases h₂ : kv.1 = k
    · simp [h₂.symm]
    · rw [dlookup, if_neg h₂] at h
      simp [ih h]

/-- Merging a dict over `base` twice is the same as merging once. -/
theorem pyUpdate_pyUpdate (d r : StrDict) (hd : (d.map Prod.fst).Nodup) :
    pyUpdate d (pyUpdate d r) = pyUpdate d r := by
  unfold pyUpdate
  congr 1
  · apply List.map_congr_left
    intro kv hkv
    rw [dlookup_append, dlookup_mapPart, nodup_dlookup_self d hd kv hkv]
    rfl
  · rw [List.filter_append]
    have h₁ : (d.map (fun kv => (kv.1, (dlookup kv.1 r).getD kv.2))).filter
        (fun kv => dlookup kv.1 d = none) = [] := by
      rw [List.filter_eq_nil_iff]
      intro kv hkv
      obtain ⟨kw, hkw, he⟩ := List.mem_map.mp hkv
      have : (dlookup kv.1 d).isSome = true := by
        rw [← he]
        exact dlookup_isSome_of_mem_keys d kw.1 (List.mem_map.mpr ⟨kw, hkw, rfl⟩)
      simp only [decide_eq_true_eq]
      intro hc
      rw [hc] at this
      exact absurd this (by simp)
    rw [h₁, List.nil_append, List.filter_filter]
    apply List.filter_congr
    intro kv hkv
    simp

theorem dinsert_append_left {α : Type} (k : String) (v : α) (a b : List (String × α))
    (h : (dlookup k a).isSome = true) : dinsert k v (a ++ b) = dinsert k v a ++ b := by
  induction a with
  | nil => simp [dlookup] at h
  | cons kv t ih =>
    by_cases h₂ : kv.1 = k
    · simp [dinsert, h₂]
    · rw [dlookup, if_neg h₂] at h
      simp [dinsert, h₂, ih h]

theorem mapPart_dinsert (d y : StrDict) (k : String) (v : String)
    (hd : (d.map Prod.fst).Nodup) (hk : (dlookup k d).isSome = true) :
    d.map (fun kv => (kv.1, (dlookup kv.1 (dinsert k v y)).getD kv.2)) =
      dinsert k v (d.map (fun kv => (kv.1, (dlookup kv.1 y).getD kv.2))) := by
  induction d with
  | nil => simp [dlookup] at hk
  | cons kw t ih =>
    by_cases h₂ : kw.1 = k
    · subst h₂
      rw [List.map_cons, List.map_cons, dinsert]
      rw [if_pos rfl, dlookup_dinsert_self]
      simp only [Option.getD_some, List.cons.injEq, true_and]
      apply List.map_congr_left
      intro kv hkv
      have hne : kv.1 ≠ kw.1 := by
        intro he
        exact (List.nodup_cons.mp hd).1 (he ▸ List.mem_map.mpr ⟨kv, hkv, rfl⟩)
      rw [dlookup_dinsert_ne _ _ _ _ hne]
    · rw [dlookup, if_neg h₂] at hk
      rw [List.map_cons, List.map_cons, dinsert, if_neg h₂,
        dlookup_dinsert_ne _ _ _ _ h₂, ih (List.nodup_cons.mp hd).2 hk]

theorem filterPart_dinsert (d y : StrDict) (k : String) (v : String)
    (hk : (dlookup k d).isSome = true) :
    (dinsert k v y).filter (fun kv => dlookup kv.1 d = none) =
      y.filter (fun kv => dlookup kv.1 d = none) := by
  induction y with
  | nil =>
    show [(k, v)].filter _ = []
    simp only [List.filter]
    rcases h : dlookup k d with _ | w
    · rw [h] at hk; exact absurd hk (by simp)
    · simp [h]
  | cons kv t ih =>
    by_cases h₂ : kv.1 = k
    · subst h₂
      rw [dinsert, if_pos rfl]
      simp only [List.filter]
      rcases h : dlookup kv.1 d with _ | w
      · rw [h] at hk; exact absurd hk (by simp)
      · simp [h]
    · rw [dinsert, if_neg h₂]
      simp only [List.filter]
      rcases h : decide (dlookup kv.1 d = none) with _ | _ <;> simp [ih]

theorem pyUpdate_dinsert (d y : StrDict) (k v : String)
    (hd : (d.map Prod.fst).Nodup) (hk : (dlookup k d).isSome = true) :
    pyUpdate d (dinsert k v y) = dinsert k v (pyUpdate d y) := by
  unfold pyUpdate
  rw [mapPart_dinsert d y k v hd hk, filterPart_dinsert d y k v hk,
    dinsert_append_left]
  rw [dlookup_mapPart]
  rcases h : dlookup k d with _ | w
  · rw [h] at hk; exact absurd hk (by simp)
  · simp

/-- Rows that absorb a merge over the default row. -/
def rowFix (r : StrDict) : Prop := pyUpdate default_schedule_row r = r

theorem default_schedule_row_keys_nodup :
    (default_schedule_row.map Prod.fst).Nodup := by decide

theorem rowFix_pyUpdate (r : StrDict) : rowFix (pyUpdate default_schedule_row r) :=
  pyUpdate_pyUpdate default_schedule_row r default_schedule_row_keys_nodup

theorem rowFix_dinsert (r : StrDict) (k v : String) (hr : rowFix r)
    (hk : (dlookup k default_schedule_row).isSome = true) :
    rowFix (dinsert k v r) := by
  unfold rowFix
  rw [pyUpdate_dinsert _ _ _ _ default_schedule_row_keys_nodup hk, hr]

theorem rowFix_calc (r : StrDict) (hr : rowFix r) : rowFix (calc_schedule_row r) := by
  unfold calc_schedule_row
  by_cases h : safe_float (rget r "qty") ≤ 0
  · rw [if_pos h]
    exact rowFix_dinsert _ _ _ (rowFix_dinsert _ _ _ (rowFix_dinsert _ _ _
      (rowFix_dinsert _ _ _ hr (by decide)) (by decide)) (by decide)) (by decide)
  · rw [if_neg h]
    exact rowFix_dinsert _ _ _ (rowFix_dinsert _ _ _ (rowFix_dinsert _ _ _
      (rowFix_dinsert _ _ _ hr (by decide)) (by decide)) (by decide)) (by decide)

theorem rowFix_default : rowFix default_schedule_row := by
  show pyUpdate default_schedule_row default_schedule_row = default_schedule_row
  decide

theorem repairRowVal_rowFix (rv : RowVal) : ∃ y, repairRowVal rv = RowVal.rdict y ∧ rowFix y := by
  rcases rv with r | _
  · exact ⟨pyUpdate default_schedule_row r, rfl, rowFix_pyUpdate r⟩
  · exact ⟨default_schedule_row, rfl, rowFix_default⟩

/-! ## The repair-and-recompute pipeline is a fixpoint on its own output -/

theorem rowsListOf_ne_nil (s₀ : Section) : rowsListOf s₀ ≠ [] := by
  unfold rowsListOf
  rcases s₀.rows.getD (RowsVal.rsList [RowVal.rdict default_schedule_row]) with rs | _
  · rcases rs with _ | ⟨r, t⟩ <;> simp
  · simp

theorem matsListOf_ne_nil (s₀ : Section) : matsListOf s₀ ≠ [] := by
  unfold matsListOf
  rcases s₀.materials.getD (MatsVal.msList default_materials) with ms | _
  · rcases ms with _ | ⟨m, t⟩ <;> simp [default_materials]
  · simp [default_materials]

/-- A section already in repaired shape is untouched by `repairSection`. -/
theorem repairSection_sdict_canon (k : String) (s : Section)
    (hsid : s.sid.isSome = true) (himt : s.imt.isSome = true)
    (hspec : s.spec_id = some k)
    (hrows : ∃ rs, s.rows = some (RowsVal.rsList rs) ∧ rs ≠ [] ∧
      ∀ rv ∈ rs, repairRowVal rv = rv)
    (hmats : ∃ ms, s.materials = some (MatsVal.msList ms) ∧ ms ≠ [] ∧
      ∀ mv ∈ ms, fixMatVal mv = mv) :
    repairSection k (SecVal.sdict s) = s := by
  obtain ⟨rs, hrs, hrsne, hrsfix⟩ := hrows
  obtain ⟨ms, hms, hmsne, hmsfix⟩ := hmats
  obtain ⟨x, hx⟩ := Option.isSome_iff_exists.mp hsid
  obtain ⟨t, ht⟩ := Option.isSome_iff_exists.mp himt
  have hRL : rowsListOf s = rs := by
    unfold rowsListOf
    rw [hrs]
    rcases rs with _ | ⟨r, rt⟩
    · exact absurd rfl hrsne
    · rfl
  have hML : matsListOf s = ms := by
    unfold matsListOf
    rw [hms]
    rcases ms with _ | ⟨m, mt⟩
    · exact absurd rfl hmsne
    · rfl
  have h₁ : rs.map repairRowVal = rs := by
    rw [show rs.map repairRowVal = rs.map id from List.map_congr_left
      (fun rv h => hrsfix rv h), List.map_id]
  have h₂ : ms.map fixMatVal = ms := by
    rw [show ms.map fixMatVal = ms.map id from List.map_congr_left
      (fun mv h => hmsfix mv h), List.map_id]
  show ({ sid := some (s.sid.getD uuidPlaceholder),
          spec_id := some k,
          rows := some (RowsVal.rsList ((rowsListOf s).map repairRowVal)),
          materials := some (MatsVal.msList ((matsListOf s).map fixMatVal)),
          imt := some (s.imt.getD 0) } : Section) = s
  rw [hRL, hML, h₁, h₂, hx, ht]
  obtain ⟨sid, spec, rows, mats, imt⟩ := s
  simp only at hx ht hrs hms hspec
  subst hx
  subst ht
  subst hrs
  subst hms
  subst hspec
  simp only [Option.getD_some]

/-- The section produced by repair and recomputation absorbs a second
repair. -/
theorem repairSection_fix (k : String) (sv : SecVal) :
    repairSection k
      (SecVal.sdict (recompute_section_totals (repairSection k sv)).1) =
      (recompute_section_totals (repairSection k sv)).1 := by
  obtain ⟨s₀, hs₀⟩ : ∃ s₀ : Section, repairSection k sv =
      { sid := some (s₀.sid.getD uuidPlaceholder), spec_id := some k,
        rows := some (RowsVal.rsList ((rowsListOf s₀).map repairRowVal)),
        materials := some (MatsVal.msList ((matsListOf s₀).map fixMatVal)),
        imt := some (s₀.imt.getD 0) } := by
    rcases sv with s | _
    · exact ⟨s, rfl⟩
    · exact ⟨default_schedule_section k, rfl⟩
  have hrec : (recompute_section_totals (repairSection k sv)).1 =
      { sid := some (s₀.sid.getD uuidPlaceholder), spec_id := some k,
        rows := some (RowsVal.rsList (((rowsListOf s₀).map repairRowVal).map calcRowVal)),
        materials := some (MatsVal.msList (((matsListOf s₀).map fixMatVal).map fixMatVal)),
        imt := some (sectionTotal (((rowsListOf s₀).map repairRowVal).map calcRowVal)
          (((matsListOf s₀).map fixMatVal).map fixMatVal)) } := by
    rw [hs₀]
    rfl
  apply repairSection_sdict_canon
  · rw [hrec]; rfl
  · rw [hrec]; rfl
  · rw [hrec]
  · refine ⟨((rowsListOf s₀).map repairRowVal).map calcRowVal, by rw [hrec], ?_, ?_⟩
    · simp [rowsListOf_ne_nil s₀]
    · intro rv hrv
      obtain ⟨rv₀, hrv₀, he⟩ := List.mem_map.mp hrv
      obtain ⟨rv₁, _, he₁⟩ := List.mem_map.mp hrv₀
      obtain ⟨y, hy, hyfix⟩ := repairRowVal_rowFix rv₁
      rw [← he, ← he₁, hy]
      show repairRowVal (RowVal.rdict (calc_schedule_row y)) =
        RowVal.rdict (calc_schedule_row y)
      show RowVal.rdict (pyUpdate default_schedule_row (calc_schedule_row y)) =
        RowVal.rdict (calc_schedule_row y)
      exact congrArg RowVal.rdict (rowFix_calc y hyfix)
  · refine ⟨((matsListOf s₀).map fixMatVal).map fixMatVal, by rw [hrec], ?_, ?_⟩
    · simp [matsListOf_ne_nil s₀]
    · intro mv hmv
      obtain ⟨mv₀, _, he⟩ := List.mem_map.mp hmv
      rw [← he]
      exact fixMatVal_idem mv₀

/-! ## Generic dictionary lemmas for the normalization pipeline -/

theorem dlookup_map_val {α β : Type} (f : String → α → β) (d : List (String × α))
    (k : String) :
    dlookup k (d.map (fun kv => (kv.1, f kv.1 kv.2))) = (dlookup k d).map (f k) := by
  induction d with
  | nil => rfl
  | cons kv t ih =>
    by_cases h : kv.1 = k
    · subst h
      simp [dlookup]
    · simp [dlookup, h, ih]

theorem keys_map_val {α β : Type} (f : String → α → β) (d : List (String × α)) :
    (d.map (fun kv => (kv.1, f kv.1 kv.2))).map Prod.fst = d.map Prod.fst := by
  induction d with
  | nil => rfl
  | cons kv t ih => simp [ih]

theorem keys_dinsert {α : Type} (k : String) (v : α) (d : List (String × α)) :
    (dinsert k v d).map Prod.fst =
      if (dlookup k d).isSome then d.map Prod.fst else d.map Prod.fst ++ [k] := by
  induction d with
  | nil => simp [dinsert, dlookup]
  | cons kv t ih =>
    by_cases h₂ : kv.1 = k
    · subst h₂
      simp [dinsert, dlookup]
    · rw [dinsert, if_neg h₂, List.map_cons, List.map_cons, ih, dlookup, if_neg h₂]
      by_cases h₃ : (dlookup k t).isSome = true <;> simp [h₃]

theorem dinsert_keys_nodup {α : Type} (k : String) (v : α) (d : List (String × α))
    (h : (d.map Prod.fst).Nodup) : ((dinsert k v d).map Prod.fst).Nodup := by
  rw [keys_dinsert]
  by_cases h₂ : (dlookup k d).isSome = true
  · rwa [if_pos h₂]
  · rw [if_neg h₂]
    rw [List.nodup_append]
    refine ⟨h, List.nodup_singleton k, ?_⟩
    intro a ha hb
    rw [List.mem_singleton.mp hb] at ha
    exact h₂ (dlookup_isSome_of_mem_keys d k ha)

theorem filter_keys_nodup {α : Type} (p : String × α → Bool) (d : List (String × α))
    (h : (d.map Prod.fst).Nodup) : ((d.filter p).map Prod.fst).Nodup :=
  List.Nodup.sublist (List.Sublist.map Prod.fst (List.filter_sublist d)) h

theorem derase_keys_nodup {α : Type} (k : String) (d : List (String × α))
    (h : (d.map Prod.fst).Nodup) : ((derase k d).map Prod.fst).Nodup :=
  filter_keys_nodup _ d h

theorem dsetdefault_keys_nodup {α : Type} (k : String) (v : α) (d : List (String × α))
    (h : (d.map Prod.fst).Nodup) : ((dsetdefault k v d).map Prod.fst).Nodup := by
  unfold dsetdefault
  by_cases h₂ : (dlookup k d).isSome = true
  · rwa [if_pos h₂]
  · rw [if_neg h₂, List.map_append, List.nodup_append]
    refine ⟨h, by simp, ?_⟩
    intro a ha hb
    rw [show a = k by simpa using hb] at ha
    exact h₂ (dlookup_isSome_of_mem_keys d k ha)

theorem sdfold_keys_nodup {α : Type} (dft : α) (L : List String) (b : List (String × α))
    (h : (b.map Prod.fst).Nodup) :
    ((L.foldl (fun d k => dsetdefault k dft d) b).map Prod.fst).Nodup := by
  induction L generalizing b with
  | nil => exact h
  | cons k rest ih => exact ih _ (dsetdefault_keys_nodup k dft b h)

theorem sdfold_lookup {α : Type} (dft : α) (L : List String) (b : List (String × α))
    (k : String) :
    dlookup k (L.foldl (fun d k₁ => dsetdefault k₁ dft d) b) =
      match dlookup k b with
      | some v => some v
      | none => if L.contains k then some dft else none := by
  induction L generalizing b with
  | nil =>
    rcases h : dlookup k b with _ | v <;> simp [h]
  | cons k₁ rest ih =>
    rw [List.foldl_cons, ih, dlookup_dsetdefault]
    by_cases h₂ : k = k₁
    · subst h₂
      rcases h : dlookup k b with _ | v
      · simp [h, List.contains_cons]
      · simp [h]
    · rw [if_neg h₂]
      rcases h : dlookup k b with _ | v
      · have h₃ : (k == k₁) = false := by simp [h₂]
        simp [h, List.contains_cons, h₃, h₂]
      · simp [h]

theorem sdfold_mem {α : Type} (dft : α) (L : List String) (b : List (String × α))
    (kv : String × α) (h : kv ∈ L.foldl (fun d k₁ => dsetdefault k₁ dft d) b) :
    kv ∈ b ∨ kv.1 ∈ L := by
  induction L generalizing b with
  | nil => exact Or.inl h
  | cons k₁ rest ih =>
    rw [List.foldl_cons] at h
    rcases ih _ h with h₂ | h₂
    · unfold dsetdefault at h₂
      by_cases h₃ : (dlookup k₁ b).isSome = true
      · rw [if_pos h₃] at h₂
        exact Or.inl h₂
      · rw [if_neg h₃] at h₂
        rcases List.mem_append.mp h₂ with h₄ | h₄
        · exact Or.inl h₄
        · right
          rw [show kv.1 = k₁ by rw [List.mem_singleton.mp h₄]]
          exact List.mem_cons_self k₁ rest
    · exact Or.inr (List.mem_cons_of_mem k₁ h₂)

theorem sdfold_noop {α : Type} (dft : α) (L : List String) (b : List (String × α))
    (h : ∀ k ∈ L, (dlookup k b).isSome = true) :
    L.foldl (fun d k₁ => dsetdefault k₁ dft d) b = b := by
  induction L with
  | nil => rfl
  | cons k₁ rest ih =>
    rw [List.foldl_cons, dsetdefault_of_isSome _ _ _ (h k₁ (List.mem_cons_self k₁ rest))]
    exact ih (fun k hk => h k (List.mem_cons_of_mem k₁ hk))

theorem dinsfold_lookup_not_mem {α β : Type} (g : String × β → α)
    (L : List (String × β)) (r : List (String × α)) (k : String)
    (h : k ∉ L.map Prod.fst) :
    dlookup k (L.foldl (fun r₁ kv => dinsert kv.1 (g kv) r₁) r) = dlookup k r := by
  induction L generalizing r with
  | nil => rfl
  | cons kv t ih =>
    rw [List.foldl_cons, ih _ (fun hc => h (List.mem_cons_of_mem _ hc)),
      dlookup_dinsert_ne]
    intro hc
    exact h (by simp [hc])

theorem dinsfold_lookup_mem {α β : Type} (g : String × β → α)
    (L : List (String × β)) (r : List (String × α))
    (hnd : (L.map Prod.fst).Nodup) (kv : String × β) (hkv : kv ∈ L) :
    dlookup kv.1 (L.foldl (fun r₁ kw => dinsert kw.1 (g kw) r₁) r) = some (g kv) := by
  induction L generalizing r with
  | nil => exact absurd hkv (List.not_mem_nil kv)
  | cons kw t ih =>
    rw [List.map_cons, List.nodup_cons] at hnd
    rw [List.foldl_cons]
    rcases List.mem_cons.mp hkv with h₂ | h₂
    · subst h₂
      rw [dinsfold_lookup_not_mem _ _ _ _ hnd.1, dlookup_dinsert_self]
    · exact ih _ hnd.2 h₂

theorem dinsfold_noop {α β : Type} (g : String × β → α)
    (L : List (String × β)) (r : List (String × α))
    (h : ∀ kv ∈ L, dlookup kv.1 r = some (g kv)) :
    L.foldl (fun r₁ kw => dinsert kw.1 (g kw) r₁) r = r := by
  induction L with
  | nil => rfl
  | cons kw t ih =>
    rw [List.foldl_cons, dinsert_lookup_self _ _ _ (h kw (List.mem_cons_self kw t))]
    exact ih (fun kv hkv => h kv (List.mem_cons_of_mem kw hkv))

/-- Every spec id built by `mkSpec` contains `"||"`. -/
theorem hasPP_append (a b : List Char) : hasPP (a ++ '|' :: '|' :: b) = true := by
  induction a with
  | nil => rfl
  | cons c t ih =>
    rcases h : t ++ '|' :: '|' :: b with _ | ⟨c₂, rest⟩
    · exact absurd h (by simp)
    · show hasPP (c :: (t ++ '|' :: '|' :: b)) = true
      rw [h]
      show (if c = '|' && c₂ = '|' then true else hasPP (c₂ :: rest)) = true
      by_cases h₂ : (c = '|' && c₂ = '|') = true
      · rw [if_pos h₂]
      · rw [if_neg h₂, ← h, ih]

theorem hasPP_mkSpec (c v : String) : hasPP (mkSpec c v).data = true :=
  hasPP_append c.data v.data

theorem mem_validSpecIds (ccs : List CostCode) (k : String)
    (h : k ∈ validSpecIds ccs) : ∃ c v, k = mkSpec c v := by
  unfold validSpecIds at h
  induction ccs with
  | nil => simp at h
  | cons cc rest ih =>
    rw [List.filter_cons] at h
    by_cases h₂ : (ccCode cc ≠ "") = true
    · rw [if_pos (by simpa using h₂), List.foldr_cons] at h
      rcases List.mem_append.mp h with h₃ | h₃
      · obtain ⟨v, _, he⟩ := List.mem_map.mp h₃
        exact ⟨ccCode cc, v, he.symm⟩
      · exact ih h₃
    · rw [if_neg (by simpa using h₂)] at h
      exact ih h

/-! ## The frame-schedule pipeline stages on already-normalized data -/

theorem recomputeSecVal_fst_repaired (k : String) (sv : SecVal) :
    (recomputeSecVal (SecVal.sdict (recompute_section_totals (repairSection k sv)).1)).1 =
      SecVal.sdict (recompute_section_totals (repairSection k sv)).1 := by
  show SecVal.sdict (recompute_section_totals
      (recompute_section_totals (repairSection k sv)).1).1 = _
  rw [recompute_section_totals_idem]

/-- Repaired entries are fixed by the rollup recomputation. -/
theorem recomputeFSVal_fst_repaired (k : String) (v : FSVal) :
    (recomputeFSVal (repairFSVal k v)).1 = repairFSVal k v := by
  unfold repairFSVal
  show FSVal.fsList (((sectionsOf k v).map (fun sv =>
      SecVal.sdict (recompute_section_totals (repairSection k sv)).1)).map
        (fun sv => (recomputeSecVal sv).1)) =
    FSVal.fsList ((sectionsOf k v).map (fun sv =>
      SecVal.sdict (recompute_section_totals (repairSection k sv)).1))
  rw [List.map_map]
  congr 1
  apply List.map_congr_left
  intro sv _
  exact recomputeSecVal_fst_repaired k sv

/-- Repairing a repaired entry changes nothing. -/
theorem repairFSVal_fix (k : String) (v : FSVal) :
    repairFSVal k (repairFSVal k v) = repairFSVal k v := by
  show repairFSVal k (FSVal.fsList ((sectionsOf k v).map (fun sv =>
    SecVal.sdict (recompute_section_totals (repairSection k sv)).1))) = _
  unfold repairFSVal
  show FSVal.fsList (((sectionsOf k v).map (fun sv =>
    SecVal.sdict (recompute_section_totals (repairSection k sv)).1)).map _) = _
  rw [List.map_map]
  congr 1
  apply List.map_congr_left
  intro sv _
  show SecVal.sdict (recompute_section_totals (repairSection k
    (SecVal.sdict (recompute_section_totals (repairSection k sv)).1))).1 = _
  rw [repairSection_fix, recompute_section_totals_idem]

theorem nfsStageA_noop (fs : List (String × FSVal))
    (h : ∀ k ∈ fs.map Prod.fst, hasPP k.data = true) : nfsStageA fs = fs := by
  unfold nfsStageA
  have hgen : ∀ (K : List String), (∀ k ∈ K, hasPP k.data = true) →
      K.foldl migrateStep fs = fs := by
    intro K hK
    induction K with
    | nil => rfl
    | cons k t ih =>
      rw [List.foldl_cons]
      have hstep : migrateStep fs k = fs := by
        unfold migrateStep
        rw [if_pos (hK k (List.mem_cons_self k t))]
      rw [hstep]
      exact ih (fun k₁ hk₁ => hK k₁ (List.mem_cons_of_mem k hk₁))
  exact hgen _ h

theorem nfsStageB_noop (ccs : List CostCode) (a : List (String × FSVal))
    (h : ∀ kv ∈ a, (validSpecIds ccs).contains kv.1 = true) : nfsStageB ccs a = a := by
  unfold nfsStageB
  rw [List.filter_eq_self]
  exact h

theorem nfsStageC_noop (ccs : List CostCode) (b : List (String × FSVal))
    (h : ∀ k ∈ validSpecIds ccs, (dlookup k b).isSome = true) : nfsStageC ccs b = b :=
  sdfold_noop _ _ _ h

theorem nfsStageD_fix (c : List (String × FSVal))
    (h : ∀ kv ∈ c, repairFSVal kv.1 kv.2 = kv.2) : nfsStageD c = c := by
  unfold nfsStageD
  have h₂ : ∀ kv ∈ c, (kv.1, repairFSVal kv.1 kv.2) = kv := by
    intro kv hkv
    rw [h kv hkv]
  rw [List.map_congr_left h₂]
  simp

/-- First component of the rollup pass on repaired data: unchanged. -/
theorem rollups_fst_repaired (c : List (String × FSVal)) (roll : List (String × ℤ)) :
    (rollups_maps (nfsStageD c) roll).1 = nfsStageD c := by
  show (nfsStageD c).map (fun kv => (kv.1, (recomputeFSVal kv.2).1)) = nfsStageD c
  have : ∀ kv ∈ nfsStageD c, (kv.1, (recomputeFSVal kv.2).1) = kv := by
    intro kv hkv
    unfold nfsStageD at hkv
    obtain ⟨kw, _, he⟩ := List.mem_map.mp hkv
    rw [← he]
    show (kw.1, (recomputeFSVal (repairFSVal kw.1 kw.2)).1) = _
    rw [recomputeFSVal_fst_repaired]
  rw [List.map_congr_left this]
  simp

theorem migrateStep_keys_nodup (fs : List (String × FSVal)) (k : String)
    (h : (fs.map Prod.fst).Nodup) : ((migrateStep fs k).map Prod.fst).Nodup := by
  simp only [migrateStep]
  by_cases h₁ : hasPP k.data = true
  · rwa [if_pos h₁]
  · rw [if_neg h₁]
    by_cases h₂ : String.mk (pyStrip k.data) = ""
    · rw [if_pos h₂]
      exact derase_keys_nodup _ _ h
    · rw [if_neg h₂]
      rcases h₃ : dlookup (mkSpec (String.mk (pyStrip k.data)) "BASE") fs with _ | tgt
      · rcases h₄ : dlookup k fs with _ | v
        · exact h
        · exact dinsert_keys_nodup _ _ _ (derase_keys_nodup _ _ h)
      · exact derase_keys_nodup _ _ (dinsert_keys_nodup _ _ _ h)

theorem nfsStageA_keys_nodup (fs : List (String × FSVal))
    (h : (fs.map Prod.fst).Nodup) : ((nfsStageA fs).map Prod.fst).Nodup := by
  unfold nfsStageA
  have hgen : ∀ (K : List String) (d : List (String × FSVal)),
      (d.map Prod.fst).Nodup → ((K.foldl migrateStep d).map Prod.fst).Nodup := by
    intro K
    induction K with
    | nil => intro d hd; exact hd
    | cons k t ih => intro d hd; exact ih _ (migrateStep_keys_nodup d k hd)
  exact hgen _ _ h

/-- Keys of the repaired map are valid spec ids. -/
theorem nfsStageD_keys_valid (ccs : List CostCode) (a : List (String × FSVal))
    (kv : String × FSVal)
    (h : kv ∈ nfsStageD (nfsStageC ccs (nfsStageB ccs a))) :
    (validSpecIds ccs).contains kv.1 = true := by
  unfold nfsStageD at h
  obtain ⟨kw, hkw, he⟩ := List.mem_map.mp h
  rw [← he]
  show (validSpecIds ccs).contains kw.1 = true
  rcases sdfold_mem _ _ _ kw hkw with h₂ | h₂
  · exact (List.mem_filter.mp h₂).2
  · exact contains_true_iff.mpr h₂

/-- Every valid spec id has an entry in the repaired map. -/
theorem nfsStageD_valid_isSome (ccs : List CostCode) (a : List (String × FSVal))
    (k : String) (hk : k ∈ validSpecIds ccs) :
    (dlookup k (nfsStageD (nfsStageC ccs (nfsStageB ccs a)))).isSome = true := by
  unfold nfsStageD
  rw [dlookup_map_val]
  have h₂ := sdfold_lookup (FSVal.fsList []) (validSpecIds ccs) (nfsStageB ccs a) k
  unfold nfsStageC
  rw [h₂]
  rcases h₃ : dlookup k (nfsStageB ccs a) with _ | v
  · rw [if_pos (contains_true_iff.mpr hk)]
    rfl
  · rfl

/-- Full idempotence of the frame-schedule normalization maps (the input
map being a Python dict, its keys are distinct). -/
theorem nfs_maps_idem (ccs : List CostCode) (fs : List (String × FSVal))
    (roll : List (String × ℤ)) (hnd : (fs.map Prod.fst).Nodup) :
    normalize_frame_schedules_maps ccs
        (normalize_frame_schedules_maps ccs fs roll).1
        (normalize_frame_schedules_maps ccs fs roll).2 =
      normalize_frame_schedules_maps ccs fs roll := by
  have hfs₁ : (normalize_frame_schedules_maps ccs fs roll).1 =
      nfsStageD (nfsStageC ccs (nfsStageB ccs (nfsStageA fs))) :=
    rollups_fst_repaired _ roll
  set D := nfsStageD (nfsStageC ccs (nfsStageB ccs (nfsStageA fs))) with hD
  have hDvalid : ∀ kv ∈ D, (validSpecIds ccs).contains kv.1 = true :=
    fun kv hkv => nfsStageD_keys_valid ccs (nfsStageA fs) kv hkv
  have hDrepair : ∀ kv ∈ D, repairFSVal kv.1 kv.2 = kv.2 := by
    intro kv hkv
    rw [hD] at hkv
    unfold nfsStageD at hkv
    obtain ⟨kw, _, he⟩ := List.mem_map.mp hkv
    rw [← he]
    exact repairFSVal_fix kw.1 kw.2
  have hDnodup : (D.map Prod.fst).Nodup := by
    rw [hD]
    unfold nfsStageD
    rw [keys_map_val]
    exact sdfold_keys_nodup _ _ _
      (filter_keys_nodup _ _ (nfsStageA_keys_nodup fs hnd))
  have hA₂ : nfsStageA D = D := by
    apply nfsStageA_noop
    intro k hk
    obtain ⟨kv, hkv, he⟩ := List.mem_map.mp hk
    obtain ⟨c, v, hcv⟩ := mem_validSpecIds ccs kv.1
      (contains_true_iff.mp (hDvalid kv hkv))
    rw [← he, hcv]
    exact hasPP_mkSpec c v
  have hB₂ : nfsStageB ccs D = D :=
    nfsStageB_noop ccs D hDvalid
  have hC₂ : nfsStageC ccs D = D := by
    apply nfsStageC_noop
    intro k hk
    rw [hD]
    exact nfsStageD_valid_isSome ccs (nfsStageA fs) k hk
  have hD₂ : nfsStageD D = D :=
    nfsStageD_fix D hDrepair
  show rollups_maps (nfsStageD (nfsStageC ccs (nfsStageB ccs
    (nfsStageA (normalize_frame_schedules_maps ccs fs roll).1))))
    (normalize_frame_schedules_maps ccs fs roll).2 = _
  rw [hfs₁, hA₂, hB₂, hC₂, hD₂]
  have hroll₁ : (normalize_frame_schedules_maps ccs fs roll).2 =
      D.foldl (fun r kv => dinsert kv.1 (recomputeFSVal kv.2).2 r) roll := rfl
  have hfst : (rollups_maps D
      (normalize_frame_schedules_maps ccs fs roll).2).1 = D := by
    rw [hD]
    exact rollups_fst_repaired _ _
  have hsnd : (rollups_maps D
      (normalize_frame_schedules_maps ccs fs roll).2).2 =
      (normalize_frame_schedules_maps ccs fs roll).2 := by
    show D.foldl (fun r kv => dinsert kv.1 (recomputeFSVal kv.2).2 r) _ = _
    apply dinsfold_noop (fun kv => (recomputeFSVal kv.2).2)
    intro kv hkv
    rw [hroll₁]
    exact dinsfold_lookup_mem (fun kv => (recomputeFSVal kv.2).2) D roll hDnodup kv hkv
  calc rollups_maps D (normalize_frame_schedules_maps ccs fs roll).2
      = ((rollups_maps D (normalize_frame_schedules_maps ccs fs roll).2).1,
         (rollups_maps D (normalize_frame_schedules_maps ccs fs roll).2).2) := rfl
    _ = (D, (normalize_frame_schedules_maps ccs fs roll).2) := by rw [hfst, hsnd]
    _ = normalize_frame_schedules_maps ccs fs roll := by
        rw [← hfs₁, hroll₁, ← hroll₁]

/-! ## The bid-sheet total

`compute_bid_sheet_total` normalizes, then sums one contribution per
bid-sheet entry: the entry's cost value (direct quote cost plus the
rollup's install-material total) marked up by the amount field when its
parse is positive, else by the percentage field when positive, else not at
all.  `parse_money` on the amount text can raise (see `parse_money`), so
the per-entry contribution is an `Option`. -/

/-- Source `bid_sheet_direct_cost`: sum of the positive parsed costs of
the `code`/`variant` quote bucket.  (`q.get("cost", 0) or 0` turns a
missing or blank cost into `0`, which `safe_int` maps to `0`, exactly
`safe_int` of the `rget` default `""`; a non-dict quotes entry would raise
on `.get` in the source and yields the empty bucket here.) -/
def bid_sheet_direct_cost (j : Job) (code variant : String) : ℤ :=
  (((quoteVariantLookup j.quotes code variant).getD []).map (fun q =>
    let c := safe_int (rget q "cost")
    if 0 < c then c else 0)).sum

/-- Source `bid_sheet_install_material_total`: the rollup entry's
`install_material_total`, `0` when absent.  (The source wraps the stored
int in `safe_int`, the identity on ints.) -/
def bid_sheet_install_material_total (j : Job) (spec_id : String) : ℤ :=
  (dlookup spec_id j.frame_schedule_rollups).getD 0

/-- Loop body of `compute_bid_sheet_total` for one bid-sheet entry with
cost value already computed: `pct_val = parse_pct(...)`,
`amt_val = parse_money(...)`, then amount markup when `amt_val > 0`,
percentage markup when `pct_val > 0`, plain cost otherwise.  `none` models
the `parse_money` exception. -/
def bid_line_total (cost_value : ℤ) (data : StrDict) : Option ℤ :=
  let pct_val := parse_pct (rget data "markup_pct")
  match parse_money (rget data "markup_amt") with
  | none => none
  | some amt_val =>
    if 0 < (amt_val : ℤ) then some (cost_value + (amt_val : ℤ))
    else if 0 < pct_val then
      some (cost_value + roundup ((cost_value : ℚ) * (pct_val / 100)))
    else some cost_value

/-- Source `_calc_markup_values`: the displayed `(pct, amt)` pair for one
entry, with the same three-way branch as the total. -/
def calc_markup_values (cost_value : ℤ) (pct_text amt_text : String) :
    Option (ℚ × ℤ) :=
  match parse_money amt_text with
  | none => none
  | some amt_val =>
    let pct_val := parse_pct pct_text
    if 0 < (amt_val : ℤ) then
      some (if cost_value = 0 then 0
            else (amt_val : ℚ) / (cost_value : ℚ) * 100, (amt_val : ℤ))
    else if 0 < pct_val then
      some (pct_val, roundup ((cost_value : ℚ) * (pct_val / 100)))
    else some (0, 0)

/-- C10: in the per-entry contribution of `compute_bid_sheet_total`, a
positive parsed `markup_amt` always wins: the line contributes
`cost_value + amt`; the percentage branch applies only when the parsed
amount is `≤ 0` and the parsed percentage is `> 0`; otherwise the line
contributes `cost_value` alone.  A stored `markup_source` field never
participates: overwriting it changes nothing, and the branch agrees with
`_calc_markup_values`' amount on every entry. -/
theorem markup_amt_precedence (cost_value : ℤ) (data : StrDict) :
    (∀ s, bid_line_total cost_value (dinsert "markup_source" s data) =
        bid_line_total cost_value data) ∧
    (∀ amt, parse_money (rget data "markup_amt") = some amt → 0 < (amt : ℤ) →
        bid_line_total cost_value data = some (cost_value + (amt : ℤ))) ∧
    (∀ amt, parse_money (rget data "markup_amt") = some amt → (amt : ℤ) ≤ 0 →
        0 < parse_pct (rget data "markup_pct") →
        bid_line_total cost_value data =
          some (cost_value + roundup ((cost_value : ℚ) *
            (parse_pct (rget data "markup_pct") / 100)))) ∧
    (∀ amt, parse_money (rget data "markup_amt") = some amt → (amt : ℤ) ≤ 0 →
        parse_pct (rget data "markup_pct") ≤ 0 →
        bid_line_total cost_value data = some cost_value) ∧
    bid_line_total cost_value data =
      (calc_markup_values cost_value (rget data "markup_pct")
        (rget data "markup_amt")).map (fun pa => cost_value + pa.2) := by
  have hamt : ∀ s, rget (dinsert "markup_source" s data) "markup_amt" =
      rget data "markup_amt" :=
    fun s => rget_dinsert_ne _ _ _ _ (by decide)
  have hpct : ∀ s, rget (dinsert "markup_source" s data) "markup_pct" =
      rget data "markup_pct" :=
    fun s => rget_dinsert_ne _ _ _ _ (by decide)
  refine ⟨fun s => ?_, fun amt h hpos => ?_, fun amt h hneg hp => ?_,
    fun amt h hneg hp => ?_, ?_⟩
  · unfold bid_line_total
    rw [hamt, hpct]
  · unfold bid_line_total
    rw [h]
    simp only [if_pos hpos]
  · unfold bid_line_total
    rw [h]
    simp only [if_neg (not_lt.mpr hneg), if_pos hp]
  · unfold bid_line_total
    rw [h]
    simp only [if_neg (not_lt.mpr hneg), if_neg (not_lt.mpr hp)]
  · unfold bid_line_total calc_markup_values
    rcases h : parse_money (rget data "markup_amt") with _ | amt
    · rfl
    · simp only
      by_cases hpos : 0 < (amt : ℤ)
      · rw [if_pos hpos, if_pos hpos]
        rfl
      · rw [if_neg hpos, if_neg hpos]
        by_cases hp : 0 < parse_pct (rget data "markup_pct")
        · rw [if_pos hp, if_pos hp]
          rfl
        · rw [if_neg hp, if_neg hp]
          simp

/-! ## Renaming a cost code: `migrate_code_key` -/

/-- Quotes half of `migrate_code_key`.  When the old code's entry exists:
if the new code also has one, each `(variant, rows)` pair of the old
bucket is `setdefault`ed into the new bucket — an existing variant of the
new bucket keeps its own rows — and the old key is deleted; otherwise the
entry is popped and re-added under the new code.  (`quotes[old].items()`
and `quotes[new].setdefault` raise on non-dict values in the source;
those shapes are left unchanged, except that an empty old dict loops zero
times and still deletes the old key.) -/
def migrate_quotes (old nw : String) (q : List (String × QVal)) :
    List (String × QVal) :=
  match dlookup old q with
  | none => q
  | some ov =>
    match dlookup nw q with
    | none => dinsert nw ov (derase old q)
    | some nv =>
      match ov, nv with
      | QVal.qdict ob, QVal.qdict nb =>
        derase old (dinsert nw
          (QVal.qdict (ob.foldl (fun acc p => dsetdefault p.1 p.2 acc) nb)) q)
      | QVal.qdict obl, _ => if obl.isEmpty then derase old q else q
      | _, _ => q

/-- Frame-schedule half of `migrate_code_key`, one key of the snapshot:
a key whose parsed base is the old code is `extend`-merged into the
renamed spec id when that already exists and renamed to it otherwise.
(`extend` with a non-list on either side is an ill-typed raising spot of
the source, modelled as unchanged.) -/
def migrateFsStep (old nw : String) (fs : List (String × FSVal))
    (spec_id : String) : List (String × FSVal) :=
  if (parse_frame_spec_id spec_id).1 ≠ old then fs
  else
    let ns := mkSpec nw (parse_frame_spec_id spec_id).2
    match dlookup ns fs with
    | some tv =>
      match tv, (dlookup spec_id fs).getD FSVal.fsNone with
      | FSVal.fsList tl, FSVal.fsList vl =>
        derase spec_id (dinsert ns (FSVal.fsList (tl ++ vl)) fs)
      | _, _ => fs
    | none =>
      match dlookup spec_id fs with
      | some v => dinsert ns v (derase spec_id fs)
      | none => fs

/-- Source `migrate_code_key`: strip both codes, bail when the old code is
blank or unchanged, then move the quote bucket and every matching
frame-schedule entry (iterating over a snapshot of the keys). -/
def migrate_code_key (old₀ nw₀ : String) (j : Job) : Job :=
  let old := pyTrim old₀
  let nw := pyTrim nw₀
  if old = "" ∨ old = nw then j
  else
    { j with
      quotes := migrate_quotes old nw j.quotes,
      frame_schedules :=
        (j.frame_schedules.map Prod.fst).foldl (migrateFsStep old nw)
          j.frame_schedules }

/-- The first defined of two optional values (`a` wins). -/
def firstSome {α : Type} : Option α → Option α → Option α
  | some r, _ => some r
  | none, b => b

/-- Lookup through the `setdefault` merge of one dict's pairs into
another: the target's binding wins, the source's first binding fills the
gaps. -/
theorem sdpairs_lookup {α : Type} (ob nb : List (String × α)) (v : String) :
    dlookup v (ob.foldl (fun acc p => dsetdefault p.1 p.2 acc) nb) =
      firstSome (dlookup v nb) (dlookup v ob) := by
  induction ob generalizing nb with
  | nil =>
    rcases h : dlookup v nb with _ | r <;> simp [h, dlookup, firstSome]
  | cons p t ih =>
    rw [List.foldl_cons, ih, dlookup_dsetdefault]
    by_cases h₂ : v = p.1
    · subst h₂
      rcases h : dlookup p.1 nb with _ | r <;> simp [h, dlookup, firstSome]
    · rw [if_neg h₂]
      rw [show dlookup v (p :: t) = dlookup v t by
        rw [dlookup, if_neg (fun he => h₂ he.symm)]]

/-- `split("||", 1)` of a pipe-free prefix glued to `"||"`. -/
theorem splitPP_cons_ne (x : Char) (l : List Char) (hx : ¬(x = '|')) :
    splitPP (x :: l) = (splitPP l).map (fun p => (x :: p.1, p.2)) := by
  rcases l with _ | ⟨y, r⟩
  · simp [splitPP]
  · simp [splitPP, hx]

theorem splitPP_append (a b : List Char) (h : '|' ∉ a) :
    splitPP (a ++ '|' :: '|' :: b) = some (a, b) := by
  induction a with
  | nil => rfl
  | cons x t ih =>
    have hx : ¬(x = '|') := fun he => h (by rw [he]; exact List.mem_cons_self _ _)
    rw [List.cons_append, splitPP_cons_ne x _ hx,
      ih (fun hm => h (List.mem_cons_of_mem x hm))]
    rfl

/-- `parse_frame_spec_id` inverts `frame_spec_id` on stripped, pipe-free
codes and non-blank stripped variants. -/
theorem parse_mkSpec (c v : String) (hc : '|' ∉ c.data)
    (hcs : pyStrip c.data = c.data) (hvs : pyStrip v.data = v.data)
    (hv : v ≠ "") : parse_frame_spec_id (mkSpec c v) = (c, v) := by
  unfold parse_frame_spec_id
  rw [show (mkSpec c v).data = c.data ++ '|' :: '|' :: v.data from rfl,
    splitPP_append _ _ hc]
  simp only [hcs, hvs]
  rw [show String.mk v.data = v from rfl, if_neg hv]

/-- C5: what renaming a cost code actually does.  The frame-schedule side
merges: with sections under both `old||var` and `new||var`, the renamed
entry holds the target's sections followed by the old ones and the old key
is gone.  The quotes side merges by `setdefault`: the bucket under the new
code keeps its own rows for every variant the new code already had, and
receives the old rows only for the variants it lacked; the old key is
deleted either way — so old quotes under a colliding variant are dropped,
not merged. -/
theorem migrate_code_key_behavior (old nw var : String)
    (ob nb : List (String × List Quote)) (vl tl : List SecVal)
    (cc : List CostCode) (bs : List (String × StrDict))
    (roll : List (String × ℤ)) (j : Job)
    (hco : '|' ∉ old.data) (hcn : '|' ∉ nw.data)
    (hso : pyStrip old.data = old.data) (hsn : pyStrip nw.data = nw.data)
    (hsv : pyStrip var.data = var.data) (hvne : var ≠ "")
    (ho : old ≠ "") (hon : old ≠ nw)
    (hj : j = { cost_codes := cc,
                quotes := [(old, QVal.qdict ob), (nw, QVal.qdict nb)],
                bid_sheet := bs,
                frame_schedules := [(mkSpec old var, FSVal.fsList vl),
                                    (mkSpec nw var, FSVal.fsList tl)],
                frame_schedule_rollups := roll }) :
    (migrate_code_key old nw j).frame_schedules =
      [(mkSpec nw var, FSVal.fsList (tl ++ vl))] ∧
    (∀ v, quoteVariantLookup (migrate_code_key old nw j).quotes nw v =
      firstSome (dlookup v nb) (dlookup v ob)) ∧
    dlookup old (migrate_code_key old nw j).quotes = none := by
  subst hj
  have htold : pyTrim old = old := by
    show String.mk (pyStrip old.data) = old
    rw [hso]
  have htnw : pyTrim nw = nw := by
    show String.mk (pyStrip nw.data) = nw
    rw [hsn]
  have hpo : parse_frame_spec_id (mkSpec old var) = (old, var) :=
    parse_mkSpec old var hco hso hsv hvne
  have hpn : parse_frame_spec_id (mkSpec nw var) = (nw, var) :=
    parse_mkSpec nw var hcn hsn hsv hvne
  have hosns : mkSpec old var ≠ mkSpec nw var := by
    intro he
    have h₂ := congrArg parse_frame_spec_id he
    rw [hpo, hpn] at h₂
    exact hon (congrArg Prod.fst h₂)
  have hmig : ∀ j₀ : Job, migrate_code_key old nw j₀ =
      { j₀ with
        quotes := migrate_quotes old nw j₀.quotes,
        frame_schedules :=
          (j₀.frame_schedules.map Prod.fst).foldl (migrateFsStep old nw)
            j₀.frame_schedules } := by
    intro j₀
    unfold migrate_code_key
    rw [htold, htnw, if_neg (by push_neg; exact ⟨ho, hon⟩)]
  rw [hmig]
  set q : List (String × QVal) := [(old, QVal.qdict ob), (nw, QVal.qdict nb)] with hq
  have h₁ : dlookup old q = some (QVal.qdict ob) := by
    rw [hq]
    show (if old = old then some (QVal.qdict ob) else _) = _
    rw [if_pos rfl]
  have h₂ : dlookup nw q = some (QVal.qdict nb) := by
    rw [hq]
    show (if old = nw then _ else dlookup nw [(nw, QVal.qdict nb)]) = _
    rw [if_neg hon]
    show (if nw = nw then some (QVal.qdict nb) else _) = _
    rw [if_pos rfl]
  have hmq : migrate_quotes old nw q =
      [(nw, QVal.qdict (ob.foldl (fun acc p => dsetdefault p.1 p.2 acc) nb))] := by
    unfold migrate_quotes
    rw [h₁, h₂]
    show derase old (dinsert nw
        (QVal.qdict (List.foldl (fun acc p => dsetdefault p.1 p.2 acc) nb ob)) q) =
      [(nw, QVal.qdict (List.foldl (fun acc p => dsetdefault p.1 p.2 acc) nb ob))]
    rw [hq]
    show derase old ((if old = nw then _ else _) : List (String × QVal)) = _
    rw [if_neg hon]
    show derase old ((old, QVal.qdict ob) ::
      (if nw = nw then _ else _ : List (String × QVal))) = _
    rw [if_pos rfl]
    show List.filter _ _ = _
    rw [List.filter_cons, List.filter_cons]
    simp [hon, Ne.symm hon]
  set fs : List (String × FSVal) := [(mkSpec old var, FSVal.fsList vl),
    (mkSpec nw var, FSVal.fsList tl)] with hfs
  have hl₁ : dlookup (mkSpec nw var) fs = some (FSVal.fsList tl) := by
    rw [hfs]
    show (if mkSpec old var = mkSpec nw var then _
      else dlookup (mkSpec nw var) [(mkSpec nw var, FSVal.fsList tl)]) = _
    rw [if_neg hosns]
    show (if mkSpec nw var = mkSpec nw var then some (FSVal.fsList tl) else _) = _
    rw [if_pos rfl]
  have hl₂ : dlookup (mkSpec old var) fs = some (FSVal.fsList vl) := by
    rw [hfs]
    show (if mkSpec old var = mkSpec old var then some (FSVal.fsList vl) else _) = _
    rw [if_pos rfl]
  have hstep₁ : migrateFsStep old nw fs (mkSpec old var) =
      [(mkSpec nw var, FSVal.fsList (tl ++ vl))] := by
    unfold migrateFsStep
    rw [hpo]
    simp only
    rw [if_neg (fun hne => hne rfl), hl₁, hl₂]
    show derase (mkSpec old var) (dinsert (mkSpec nw var) _ fs) = _
    rw [hfs]
    show derase (mkSpec old var)
      ((if mkSpec old var = mkSpec nw var then _ else _ : List (String × FSVal))) = _
    rw [if_neg hosns]
    show derase (mkSpec old var) ((mkSpec old var, FSVal.fsList vl) ::
      (if mkSpec nw var = mkSpec nw var then _ else _ : List (String × FSVal))) = _
    rw [if_pos rfl]
    show List.filter _ _ = _
    rw [List.filter_cons, List.filter_cons]
    simp [hosns, Ne.symm hosns]
  have hstep₂ : migrateFsStep old nw [(mkSpec nw var, FSVal.fsList (tl ++ vl))]
      (mkSpec nw var) = [(mkSpec nw var, FSVal.fsList (tl ++ vl))] := by
    unfold migrateFsStep
    rw [hpn]
    simp only
    rw [if_pos (Ne.symm hon)]
  refine ⟨?_, fun v => ?_, ?_⟩
  · show ([mkSpec old var, mkSpec nw var].foldl (migrateFsStep old nw) fs) = _
    rw [List.foldl_cons, hstep₁, List.foldl_cons, hstep₂, List.foldl_nil]
  · show quoteVariantLookup (migrate_quotes old nw q) nw v = _
    rw [hmq]
    unfold quoteVariantLookup
    have hl₃ : dlookup nw
        [(nw, QVal.qdict (ob.foldl (fun acc p => dsetdefault p.1 p.2 acc) nb))] =
        some (QVal.qdict (ob.foldl (fun acc p => dsetdefault p.1 p.2 acc) nb)) := by
      show (if nw = nw then
          some (QVal.qdict (ob.foldl (fun acc p => dsetdefault p.1 p.2 acc) nb))
        else dlookup nw []) =
        some (QVal.qdict (ob.foldl (fun acc p => dsetdefault p.1 p.2 acc) nb))
      rw [if_pos rfl]
    rw [hl₃]
    exact sdpairs_lookup ob nb v
  · show dlookup old (migrate_quotes old nw q) = none
    rw [hmq]
    show (if nw = old then _ else (none : Option QVal)) = none
    rw [if_neg (Ne.symm hon)]

/-- C5 witness: the migration theorem at a concrete rename. -/
theorem migrate_code_key_behavior_witness :
    ("A" : String) ≠ "B" ∧
    dlookup "A" (migrate_code_key "A" "B"
      { cost_codes := [],
        quotes := [("A", QVal.qdict [("BASE", [[("cost", "100")]])]),
                   ("B", QVal.qdict [])],
        bid_sheet := [],
        frame_schedules := [(mkSpec "A" "X", FSVal.fsList []),
                            (mkSpec "B" "X", FSVal.fsList [])],
        frame_schedule_rollups := [] }).quotes = none :=
  ⟨by decide,
   (migrate_code_key_behavior "A" "B" "X" [("BASE", [[("cost", "100")]])] []
      [] [] [] [] [] _ (by decide) (by decide) (by decide) (by decide)
      (by decide) (by decide) (by decide) (by decide) rfl).2.2⟩

/-- C5 counterexample: renaming `"A"` to `"B"` when both codes hold a
`BASE` bucket keeps only `"B"`'s own rows — the quote stored under
`"A"`/`BASE` (cost `100`) is dropped, not merged, refuting "no data
loss". -/
theorem migrate_code_key_counterexample :
    (migrate_code_key "A" "B"
      { cost_codes := [],
        quotes := [("A", QVal.qdict [("BASE", [[("cost", "100")]])]),
                   ("B", QVal.qdict [("BASE", [[("cost", "200")]])])],
        bid_sheet := [],
        frame_schedules := [],
        frame_schedule_rollups := [] }).quotes =
      [("B", QVal.qdict [("BASE", [[("cost", "200")]])])] := by
  decide

/-! ## The rollup pass characterized -/

theorem recomputeSecVal_idem (sv : SecVal) :
    recomputeSecVal (recomputeSecVal sv).1 = recomputeSecVal sv := by
  rcases sv with s | _
  · show (SecVal.sdict (recompute_section_totals (recompute_section_totals s).1).1,
        (recompute_section_totals (recompute_section_totals s).1).2) =
      (SecVal.sdict (recompute_section_totals s).1, (recompute_section_totals s).2)
    rw [recompute_section_totals_idem]
  · rfl

theorem recomputeFSVal_idem (v : FSVal) :
    recomputeFSVal (recomputeFSVal v).1 = recomputeFSVal v := by
  rcases v with svs | s | _ | _
  · have h₁ : ∀ sv : SecVal,
        (recomputeSecVal ((recomputeSecVal sv).1)).1 = (recomputeSecVal sv).1 :=
      fun sv => congrArg Prod.fst (recomputeSecVal_idem sv)
    have h₂ : ∀ sv : SecVal,
        (recomputeSecVal ((recomputeSecVal sv).1)).2 = (recomputeSecVal sv).2 :=
      fun sv => congrArg Prod.snd (recomputeSecVal_idem sv)
    show (FSVal.fsList ((svs.map (fun sv => (recomputeSecVal sv).1)).map
        (fun sv => (recomputeSecVal sv).1)),
      ((svs.map (fun sv => (recomputeSecVal sv).1)).map
        (fun sv => (recomputeSecVal sv).2)).sum) =
      (FSVal.fsList (svs.map (fun sv => (recomputeSecVal sv).1)),
       (svs.map (fun sv => (recomputeSecVal sv).2)).sum)
    have hm₁ : svs.map ((fun sv => (recomputeSecVal sv).1) ∘
        (fun sv => (recomputeSecVal sv).1)) =
        svs.map (fun sv => (recomputeSecVal sv).1) :=
      List.map_congr_left (fun sv _ => by
        simp only [Function.comp_apply, h₁ sv])
    have hm₂ : svs.map ((fun sv => (recomputeSecVal sv).2) ∘
        (fun sv => (recomputeSecVal sv).1)) =
        svs.map (fun sv => (recomputeSecVal sv).2) :=
      List.map_congr_left (fun sv _ => by
        simp only [Function.comp_apply, h₂ sv])
    rw [List.map_map, List.map_map, hm₁, hm₂]
  · rfl
  · rfl
  · rfl

/-- C8: what `compute_frame_schedule_rollups` actually does.  For every
entry of the frame-schedules map the rollup receives the entry's
recomputed install-material total — for a section list, the sum of the
per-section totals; the pass is idempotent; but it is not side-effect
free: the frame-schedules map itself is rewritten with every section
recomputed in place. -/
theorem rollups_characterization (fs : List (String × FSVal))
    (roll : List (String × ℤ)) (hnd : (fs.map Prod.fst).Nodup) :
    (∀ kv ∈ fs, dlookup kv.1 (rollups_maps fs roll).2 =
      some (recomputeFSVal kv.2).2) ∧
    (∀ kv ∈ fs, ∀ svs, kv.2 = FSVal.fsList svs →
      dlookup kv.1 (rollups_maps fs roll).2 =
        some ((svs.map (fun sv => (recomputeSecVal sv).2)).sum)) ∧
    (rollups_maps fs roll).1 = fs.map (fun kv => (kv.1, (recomputeFSVal kv.2).1)) ∧
    rollups_maps (rollups_maps fs roll).1 (rollups_maps fs roll).2 =
      rollups_maps fs roll := by
  have hlook : ∀ kv ∈ fs, dlookup kv.1 (rollups_maps fs roll).2 =
      some (recomputeFSVal kv.2).2 := by
    intro kv hkv
    exact dinsfold_lookup_mem (fun kw => (recomputeFSVal kw.2).2) fs roll hnd kv hkv
  refine ⟨hlook, fun kv hkv svs hsvs => ?_, rfl, ?_⟩
  · rw [hlook kv hkv, hsvs]
    rfl
  · have hfst : (rollups_maps (rollups_maps fs roll).1 (rollups_maps fs roll).2).1 =
        (rollups_maps fs roll).1 := by
      show (fs.map (fun kv => (kv.1, (recomputeFSVal kv.2).1))).map
          (fun kv => (kv.1, (recomputeFSVal kv.2).1)) = _
      rw [List.map_map]
      exact List.map_congr_left (fun kv _ => by
        simp only [Function.comp_apply, recomputeFSVal_idem])
    have hsnd : (rollups_maps (rollups_maps fs roll).1 (rollups_maps fs roll).2).2 =
        (rollups_maps fs roll).2 := by
      show ((rollups_maps fs roll).1).foldl
          (fun r kv => dinsert kv.1 (recomputeFSVal kv.2).2 r)
          (rollups_maps fs roll).2 = _
      apply dinsfold_noop (fun kv => (recomputeFSVal kv.2).2)
      intro kv hkv
      obtain ⟨kw, hkw, he⟩ := List.mem_map.mp hkv
      rw [← he]
      show dlookup kw.1 (rollups_maps fs roll).2 =
        some (recomputeFSVal (recomputeFSVal kw.2).1).2
      rw [recomputeFSVal_idem]
      exact hlook kw hkw
    calc rollups_maps (rollups_maps fs roll).1 (rollups_maps fs roll).2
        = ((rollups_maps (rollups_maps fs roll).1 (rollups_maps fs roll).2).1,
           (rollups_maps (rollups_maps fs roll).1 (rollups_maps fs roll).2).2) := rfl
      _ = ((rollups_maps fs roll).1, (rollups_maps fs roll).2) := by rw [hfst, hsnd]
      _ = rollups_maps fs roll := rfl

/-- C8 witness: the rollup characterization at a one-entry map. -/
theorem rollups_characterization_witness :
    (([("A||BASE", FSVal.fsList [])].map (Prod.fst (β := FSVal))).Nodup) ∧
    dlookup "A||BASE"
      (rollups_maps [("A||BASE", FSVal.fsList [])] []).2 = some 0 :=
  ⟨by decide,
   by
    have h := (rollups_characterization [("A||BASE", FSVal.fsList [])] []
      (by decide)).2.1 ("A||BASE", FSVal.fsList [])
      (List.mem_cons_self _ _) [] rfl
    simpa using h⟩

/-- C8 counterexample: the rollup pass is not free of side effects on the
sections — recomputation rewrites a stale row in place (a row with no
quantity has its `sqft` cleared), so the frame-schedules map differs
afterwards. -/
theorem rollups_mutates_sections :
    (rollups_maps
      [("A||BASE", FSVal.fsList [SecVal.sdict
        { sid := some "s", spec_id := some "A||BASE",
          rows := some (RowsVal.rsList [RowVal.rdict [("qty", ""), ("sqft", "99")]]),
          materials := some (MatsVal.msList []),
          imt := some 0 }])] []).1 ≠
      [("A||BASE", FSVal.fsList [SecVal.sdict
        { sid := some "s", spec_id := some "A||BASE",
          rows := some (RowsVal.rsList [RowVal.rdict [("qty", ""), ("sqft", "99")]]),
          materials := some (MatsVal.msList []),
          imt := some 0 }])] := by
  decide

/-! ## Claim theorems: parsers and the row calculator -/

/-- C6: the numeric parsers are not all total.  `safe_float`, `safe_int`
and `parse_pct` degrade to zero on junk and `parse_money` handles money
formats — but a superscript digit passes `parse_money`'s `isdigit` filter
and then blows up the unguarded `int(...)`: the function raises (`none`
here) instead of degrading to zero. -/
theorem parse_money_not_total :
    parse_money "²" = none ∧
    parse_money "" = some 0 ∧ parse_money "abc" = some 0 ∧
    parse_money "$1,234" = some 1234 ∧
    safe_float "abc" = 0 ∧ safe_int "abc" = 0 ∧ parse_pct "abc" = 0 := by
  refine ⟨by decide, by decide, by decide, by decide, by decide, by decide, by decide⟩

theorem calc_cost_999 : calc_cost 999 (333 / 10) = 1331 := by
  have h₂ : ⌊((999 : ℤ) : ℚ) * (333 / 10 / 100)⌋ = 332 := by
    rw [Int.floor_eq_iff]
    norm_num
  unfold calc_cost pyTrunc
  rw [if_pos (by norm_num), h₂]
  decide

/-- C3: `calc_cost` adds the surcharge truncated toward zero, which on
non-negative inputs is the floor of `price·pct/100`; the spec's first
check value holds and `calc_cost(999, 33.3)` is `1331` (truncation of
`332.667`), not the claimed `1332`. -/
theorem calc_cost_spec (p : ℤ) (s : ℚ) (hp : 0 ≤ p) (hs : 0 ≤ s) :
    calc_cost p s = p + ⌊(p : ℚ) * s / 100⌋ ∧
    calc_cost 1000 10 = 1100 ∧ calc_cost 999 (333 / 10) = 1331 := by
  refine ⟨?_, ?_, calc_cost_999⟩
  · unfold calc_cost pyTrunc
    rw [if_pos (mul_nonneg (by exact_mod_cast hp) (div_nonneg hs (by norm_num))),
      mul_div_assoc]
  · have h₂ : ⌊((1000 : ℤ) : ℚ) * (10 / 100)⌋ = 100 := by
      rw [Int.floor_eq_iff]
      norm_num
    unfold calc_cost pyTrunc
    rw [if_pos (by norm_num), h₂]
    decide

/-- C3 witness: the corrected statement at the spec's own check inputs. -/
theorem calc_cost_spec_witness :
    (0 : ℤ) ≤ 1000 ∧ (0 : ℚ) ≤ 10 ∧
    (calc_cost 1000 10 = 1000 + ⌊((1000 : ℤ) : ℚ) * 10 / 100⌋ ∧
     calc_cost 1000 10 = 1100 ∧ calc_cost 999 (333 / 10) = 1331) :=
  ⟨by norm_num, by norm_num, calc_cost_spec 1000 10 (by norm_num) (by norm_num)⟩

/-- C3 counterexample: the claimed `calc_cost(999, 33.3) == 1332` fails —
the value is `1331`. -/
theorem calc_cost_counterexample :
    calc_cost 999 (333 / 10) = 1331 ∧ calc_cost 999 (333 / 10) ≠ 1332 :=
  ⟨calc_cost_999, by rw [calc_cost_999]; decide⟩

theorem safe_float_one : safe_float "1" = 1 := by
  show (0 : ℚ) * 10 + ((1 : ℕ) : ℚ) = 1
  norm_num

theorem safe_float_twelve : safe_float "12" = 12 := by
  show ((0 : ℚ) * 10 + ((1 : ℕ) : ℚ)) * 10 + ((2 : ℕ) : ℚ) = 12
  norm_num

/-- C4: `calc_schedule_row` clears `sqft`, `perim`, `caulk_lf` and
`head_sill` whenever the parsed qty is `≤ 0`, and otherwise writes the
three ceiling formulas `⌈w·h·qty/144⌉`, `⌈2·(w/12 + h/12)·qty⌉` and
`⌈qty·w/6⌉`; at the exact-integer boundary width 12, height 12, qty 1 the
`sqft` cell is `"1"`, confirming ceiling rounding. -/
theorem calc_schedule_row_spec :
    (∀ r : StrDict,
      (safe_float (rget r "qty") ≤ 0 →
        rget (calc_schedule_row r) "sqft" = "" ∧
        rget (calc_schedule_row r) "perim" = "" ∧
        rget (calc_schedule_row r) "caulk_lf" = "" ∧
        rget (calc_schedule_row r) "head_sill" = "") ∧
      (0 < safe_float (rget r "qty") →
        rget (calc_schedule_row r) "sqft" =
          toString (⌈(safe_float (rget r "width") * safe_float (rget r "height") *
            safe_float (rget r "qty")) / 144⌉) ∧
        rget (calc_schedule_row r) "perim" =
          toString (⌈2 * ((safe_float (rget r "width") / 12) +
            (safe_float (rget r "height") / 12)) * safe_float (rget r "qty")⌉) ∧
        rget (calc_schedule_row r) "head_sill" =
          toString (⌈safe_float (rget r "qty") * safe_float (rget r "width") / 6⌉))) ∧
    rget (calc_schedule_row [("qty", "1"), ("width", "12"), ("height", "12")])
      "sqft" = "1" := by
  constructor
  · intro r
    constructor
    · intro h
      rw [calc_neg r h]
      refine ⟨?_, ?_, ?_, ?_⟩
      · rw [rget_dinsert_ne _ _ _ _ (by decide), rget_dinsert_ne _ _ _ _ (by decide),
          rget_dinsert_ne _ _ _ _ (by decide), rget_dinsert_self]
      · rw [rget_dinsert_ne _ _ _ _ (by decide), rget_dinsert_ne _ _ _ _ (by decide),
          rget_dinsert_self]
      · rw [rget_dinsert_ne _ _ _ _ (by decide), rget_dinsert_self]
      · rw [rget_dinsert_self]
    · intro h
      have h' : ¬(safe_float (rget r "qty") ≤ 0) := not_le.mpr h
      refine ⟨?_, ?_, ?_⟩
      · show (dlookup "sqft" (calc_schedule_row r)).getD "" = _
        rw [dlookup_calc_pos_sqft r h']
        rfl
      · show (dlookup "perim" (calc_schedule_row r)).getD "" = _
        rw [dlookup_calc_pos_perim r h']
        rfl
      · show (dlookup "head_sill" (calc_schedule_row r)).getD "" = _
        rw [dlookup_calc_pos_hs r h']
        rfl
  · have hq : rget [("qty", "1"), ("width", "12"), ("height", "12")] "qty" = "1" := by
      decide
    have hw : rget [("qty", "1"), ("width", "12"), ("height", "12")] "width" = "12" := by
      decide
    have hh : rget [("qty", "1"), ("width", "12"), ("height", "12")] "height" = "12" := by
      decide
    have hpos : ¬(safe_float
        (rget [("qty", "1"), ("width", "12"), ("height", "12")] "qty") ≤ 0) := by
      rw [hq, safe_float_one]
      norm_num
    show (dlookup "sqft"
      (calc_schedule_row [("qty", "1"), ("width", "12"), ("height", "12")])).getD "" = "1"
    rw [dlookup_calc_pos_sqft _ hpos]
    show sqftText [("qty", "1"), ("width", "12"), ("height", "12")] = "1"
    unfold sqftText
    rw [hq, hw, hh, safe_float_one, safe_float_twelve]
    have hv : ((12 : ℚ) * 12 * 1) / 144 = 1 := by norm_num
    rw [hv]
    show toString (⌈(1 : ℚ)⌉) = "1"
    rw [Int.ceil_one]
    rfl

/-! ## Claim theorems: normalization invariants -/

/-- C7: bid-sheet reconciliation seeds a fresh entry with exactly
`markup_pct=""`, `markup_amt=""`, `notes=""` and `color="None"` — no
`markup_source` field is ever seeded or written, so a normalized entry
carries no such discriminator unless the stored data already had one. -/
theorem bid_sheet_seeding (ccs : List CostCode) (bs : List (String × StrDict))
    (k : String) (h₁ : k ∈ validSpecIds ccs) (h₂ : dlookup k bs = none) :
    dlookup k (normalize_bid_sheet_map ccs bs) =
      some [("markup_pct", ""), ("markup_amt", ""), ("notes", ""), ("color", "None")] ∧
    dlookup "markup_source"
      ((dlookup k (normalize_bid_sheet_map ccs bs)).getD []) = none := by
  have h₃ : dlookup k (normalize_bid_sheet_map ccs bs) = some (seedEntry []) := by
    rw [normalize_bid_sheet_map_lookup, if_pos (contains_true_iff.mpr h₁), h₂]
    rfl
  have h₄ : seedEntry [] =
      [("markup_pct", ""), ("markup_amt", ""), ("notes", ""), ("color", "None")] := by
    decide
  rw [h₃, h₄]
  exact ⟨rfl, by decide⟩

/-- C7 witness: the seeding theorem at a one-code job. -/
theorem bid_sheet_seeding_witness :
    mkSpec "A" "BASE" ∈ validSpecIds [⟨"A", []⟩] ∧
    dlookup (mkSpec "A" "BASE") (normalize_bid_sheet_map [⟨"A", []⟩] []) =
      some [("markup_pct", ""), ("markup_amt", ""), ("notes", ""), ("color", "None")] :=
  ⟨by decide,
   (bid_sheet_seeding [⟨"A", []⟩] [] (mkSpec "A" "BASE") (by decide) rfl).1⟩

/-- C7 counterexample: a freshly seeded normalized entry exists and holds
no `markup_source` key at all, refuting both the claimed
`markup_source="pct"` seed and the claimed discriminator invariant. -/
theorem bid_sheet_seeding_counterexample :
    (dlookup (mkSpec "A" "BASE")
      (normalize_bid_sheet_map [⟨"A", []⟩] [])).isSome = true ∧
    dlookup "markup_source"
      ((dlookup (mkSpec "A" "BASE")
        (normalize_bid_sheet_map [⟨"A", []⟩] [])).getD []) = none := by
  decide

/-- C1: the key structure of a normalized quotes map.  A code has an
entry iff it is the stripped non-blank code of some cost-code record, and
the entry's variant keys are exactly `variants_for` of the LAST record
carrying that code: with duplicate code strings an earlier record's extra
variants are pruned by the later record's loop pass, so the claimed
per-record key-set equality holds only for the last record. -/
theorem quotes_key_structure (ccs : List CostCode) (q : List (String × QVal))
    (c : String) :
    ((dlookup c (normalize_quotes_map ccs q)).isSome = true ↔ c ∈ presCodes ccs) ∧
    (∀ b, dlookup c (normalize_quotes_map ccs q) = some (QVal.qdict b) →
      ∀ v, (dlookup v b).isSome = true ↔ v ∈ (neededSeq ccs c).getLastD []) := by
  constructor
  · constructor
    · intro h
      by_cases hc : (presCodes ccs).contains c = true
      · exact contains_true_iff.mp hc
      · rw [normalize_quotes_absent ccs q c hc] at h
        exact absurd h (by simp)
    · intro h
      obtain ⟨b, hb, _⟩ := normalize_quotes_present ccs q c (contains_true_iff.mpr h)
      rw [hb]
      rfl
  · intro b hb v
    by_cases hc : (presCodes ccs).contains c = true
    · obtain ⟨b₀, hb₀, hv⟩ := normalize_quotes_present ccs q c hc
      rw [hb₀] at hb
      have hbe : b₀ = b := by simpa using hb
      subst hbe
      rw [hv v]
      unfold chainVal
      by_cases hlast : ((neededSeq ccs c).getLastD []).contains v = true
      · rw [if_pos hlast]
        exact ⟨fun _ => contains_true_iff.mp hlast, fun _ => rfl⟩
      · rw [if_neg hlast]
        exact ⟨fun hx => absurd hx (by simp),
          fun hm => absurd (contains_true_iff.mpr hm) hlast⟩
    · rw [normalize_quotes_absent ccs q c hc] at hb
      exact absurd hb (by simp)

/-- C1 counterexample: two cost-code records share the code `"A"`, the
first with alternate `1` and the second with none; after normalization
there is no `ALT1` bucket even though `variants_for` of the first record
demands one — only the last record's variant set survives. -/
theorem quotes_key_structure_counterexample :
    "ALT1" ∈ variants_for_cc [(1 : ℤ)] ∧
    quoteVariantLookup
      (normalize_quotes_map [⟨"A", [(1 : ℤ)]⟩, ⟨"A", []⟩] []) "A" "ALT1" = none := by
  decide

/-- C2: after a full normalization pass every quote bucket is a non-empty
list and the frame-schedules map has an entry for exactly the valid spec
ids — but such an entry may be the empty section list (see the
counterexample), so only the quotes half of the claim holds. -/
theorem normalized_nonempty_and_key_sets (ccs : List CostCode)
    (q : List (String × QVal)) (fs : List (String × FSVal))
    (roll : List (String × ℤ)) :
    (∀ c v l, quoteVariantLookup (normalize_quotes_map ccs q) c v = some l →
      l ≠ []) ∧
    (∀ k, (dlookup k (normalize_frame_schedules_maps ccs fs roll).1).isSome = true ↔
      k ∈ validSpecIds ccs) := by
  refine ⟨fun c v l h => normalize_quotes_bucket_ne_nil ccs q c v l h, fun k => ?_⟩
  rw [show (normalize_frame_schedules_maps ccs fs roll).1 =
    nfsStageD (nfsStageC ccs (nfsStageB ccs (nfsStageA fs))) from
    rollups_fst_repaired _ roll]
  constructor
  · intro h
    have hk := mem_keys_of_dlookup_isSome _ _ h
    obtain ⟨kv, hkv, he⟩ := List.mem_map.mp hk
    rw [← he]
    exact contains_true_iff.mp (nfsStageD_keys_valid ccs (nfsStageA fs) kv hkv)
  · intro h
    exact nfsStageD_valid_isSome ccs (nfsStageA fs) k h

/-- C2 counterexample: a valid spec id with no stored sections is created
as — and remains — the empty list, so a frame-schedule spec entry can be
an empty list after a full normalization pass. -/
theorem empty_frame_schedule_entry :
    dlookup (mkSpec "A" "BASE")
      (normalize_frame_schedules_maps [⟨"A", []⟩] [] []).1 =
      some (FSVal.fsList []) := by
  decide

/-- Extensional equality of two job states.  Python compares dicts by
`==`, which ignores insertion order, so the quotes maps are compared by
lookup at every code (and, inside an entry, at every variant:
`QValEqv`); the remaining fields are compared structurally. -/
def JobEq (a b : Job) : Prop :=
  a.cost_codes = b.cost_codes ∧
  (∀ c, QValEqv (dlookup c a.quotes) (dlookup c b.quotes)) ∧
  a.bid_sheet = b.bid_sheet ∧
  a.frame_schedules = b.frame_schedules ∧
  a.frame_schedule_rollups = b.frame_schedule_rollups

/-- C9: the full normalization pass (`normalize_quotes`,
`normalize_bid_sheet`, `normalize_frame_schedules` with its rollup
recomputation) is idempotent: run twice on a job whose frame-schedules
dict has (as every Python dict does) distinct keys, the second run
changes nothing — bid sheet, frame schedules and rollups are literally
equal, the quotes map is equal as a Python dict (same entries at every
code and variant). -/
theorem normalizePass_idem (j : Job)
    (h : (j.frame_schedules.map Prod.fst).Nodup) :
    JobEq (normalizePass (normalizePass j)) (normalizePass j) := by
  refine ⟨rfl, fun c => ?_, ?_, ?_, ?_⟩
  · exact normalize_quotes_map_idem j.cost_codes j.quotes c
  · exact normalize_bid_sheet_map_idem j.cost_codes j.bid_sheet
  · show (normalize_frame_schedules_maps j.cost_codes
        (normalize_frame_schedules_maps j.cost_codes j.frame_schedules
          j.frame_schedule_rollups).1
        (normalize_frame_schedules_maps j.cost_codes j.frame_schedules
          j.frame_schedule_rollups).2).1 =
      (normalize_frame_schedules_maps j.cost_codes j.frame_schedules
        j.frame_schedule_rollups).1
    rw [nfs_maps_idem j.cost_codes j.frame_schedules j.frame_schedule_rollups h]
  · show (normalize_frame_schedules_maps j.cost_codes
        (normalize_frame_schedules_maps j.cost_codes j.frame_schedules
          j.frame_schedule_rollups).1
        (normalize_frame_schedules_maps j.cost_codes j.frame_schedules
          j.frame_schedule_rollups).2).2 =
      (normalize_frame_schedules_maps j.cost_codes j.frame_schedules
        j.frame_schedule_rollups).2
    rw [nfs_maps_idem j.cost_codes j.frame_schedules j.frame_schedule_rollups h]

/-- C9 witness: idempotence at a concrete job. -/
theorem normalizePass_idem_witness :
    ((([("A||BASE", FSVal.fsList [])] : List (String × FSVal)).map
      Prod.fst).Nodup) ∧
    JobEq
      (normalizePass (normalizePass
        { cost_codes := [⟨"A", []⟩], quotes := [], bid_sheet := [],
          frame_schedules := [("A||BASE", FSVal.fsList [])],
          frame_schedule_rollups := [] }))
      (normalizePass
        { cost_codes := [⟨"A", []⟩], quotes := [], bid_sheet := [],
          frame_schedules := [("A||BASE", FSVal.fsList [])],
          frame_schedule_rollups := [] }) :=
  ⟨by decide, normalizePass_idem _ (by decide)⟩

end BidApp
